import Mathlib

/-! # LED chaser: the animation sequencer

A shallow embedding of `include/08-animations-v2.h` (the second version of the
periodic-animation sequencer, namespace `AnimationsV2`) and the properties of
its player state machine; of `include/07-animations-v1.h` (the first version,
namespace `AnimationsV1`), compared with the second; and of the earlier
exercises `include/05-binary-counter.h` (namespace `BinaryCounter`),
`include/06-simple-animation.h` (`SimpleAnimation`),
`include/04-revised-blink.h` (`RevisedBlink`),
`include/03-two-way-scanning.h` (`TwoWayScanning`) and
`include/02-one-way-scanning.h` (`OneWayScanning`).

Conventions of the embedding:

* `uint8_t` and `uint32_t` values are natural numbers; every operation that can
  overflow in the source carries its explicit `% 256` or `% 4294967296`.
  Expressions such as `player.frame + 1 < pAnimation->frames` are evaluated in
  `int` after integer promotion and therefore carry no reduction.
* A read outside a table is undefined behaviour in the source; the embedded
  functions return `none` there.
* The calls of `pinMode` and `digitalWrite` made by a function are returned as
  the list of events it produced, in program order.
* `millis()` is an input: the functions that read the clock take the value read.
-/

/-- Calls of the Arduino core that act on the pins, as they appear in a trace. -/
inductive PinEvent where
  | pinMode (pin mode : Nat)
  | digitalWrite (pin val : Nat)
deriving DecidableEq, Repr

/-- The Arduino core constant `OUTPUT`. -/
def OUTPUT : Nat := 1

namespace AnimationsV2

/-- Source: `const uint8_t NUM_LEDS = 8;` -/
def NUM_LEDS : Nat := 8

/-- Source: `const uint8_t LED_PIN[] = { 5, 6, 7, 8, 9, 10, 11, 12 };` -/
def LED_PIN : List Nat := [5, 6, 7, 8, 9, 10, 11, 12]

/-- Source: `const uint8_t NUM_ANIMATIONS = 8;` -/
def NUM_ANIMATIONS : Nat := 8

/-- Source: `const uint8_t ANIMATION_FRAME[]`: the frames of all animations, in one table. -/
def ANIMATION_FRAME : List Nat := [
  -- animation #0 (14 frames)
  0b10000000, 0b01000000, 0b00100000, 0b00010000, 0b00001000, 0b00000100, 0b00000010,
  0b00000001, 0b00000010, 0b00000100, 0b00001000, 0b00010000, 0b00100000, 0b01000000,
  -- animation #1 (6 frames)
  0b10000001, 0b01000010, 0b00100100, 0b00011000, 0b00100100, 0b01000010,
  -- animation #2 (10 frames)
  0b11100000, 0b01110000, 0b00111000, 0b00011100, 0b00001110,
  0b00000111, 0b00001110, 0b00011100, 0b00111000, 0b01110000,
  -- animation #3 (8 frames)
  0b00000000, 0b00011000, 0b00111100, 0b01111110,
  0b11111111, 0b01111110, 0b00111100, 0b00011000,
  -- animation #4 (2 frames)
  0b01010101, 0b10101010,
  -- animation #5 (4 frames)
  0b00010001, 0b00100010, 0b01000100, 0b10001000,
  -- animation #6 (8 frames)
  0b00000001, 0b00000010, 0b00000100, 0b00001000,
  0b00010000, 0b00100000, 0b01000000, 0b10000000,
  -- animation #7 (37 frames)
  0b00000000, 0b00010000, 0b00001000, 0b00010000, 0b00100000, 0b00010000, 0b00001000,
  0b00000100, 0b00001000, 0b00010000, 0b00100000, 0b01000000, 0b00100000, 0b00010000,
  0b00001000, 0b00000100, 0b00000010, 0b00000100, 0b00001000, 0b00010000, 0b00100000,
  0b01000000, 0b10000000, 0b01000000, 0b00100000, 0b00010000, 0b00001000, 0b00000100,
  0b00000010, 0b00000001, 0b00000010, 0b00000100, 0b00001000, 0b00010000, 0b00100000,
  0b01000000, 0b10000000]

/-- Source: `struct Animation`: four `uint8_t` fields (`repeat_` is the source's `repeat`). -/
structure Animation where
  start : Nat
  frames : Nat
  frame_delay_ms : Nat
  repeat_ : Nat
deriving DecidableEq, Repr

/-- Source: `const Animation animation[]`: the animations that are chained. -/
def animation : List Animation := [
  ⟨ 0, 14,  40,  4⟩, -- animation #0
  ⟨14,  6,  50,  8⟩, -- animation #1
  ⟨20, 10,  50,  5⟩, -- animation #2
  ⟨30,  8,  50,  6⟩, -- animation #3
  ⟨38,  2, 120, 10⟩, -- animation #4
  ⟨40,  4,  80,  8⟩, -- animation #5
  ⟨44,  8,  60,  7⟩, -- animation #6
  ⟨52, 37,  40,  1⟩] -- animation #7

/-- Source: `struct Player`: three `uint8_t` fields and the `uint32_t` date `last_ms`
(`repeat_` is the source's `repeat`). -/
structure Player where
  animation_id : Nat
  repeat_ : Nat
  frame : Nat
  last_ms : Nat
deriving DecidableEq, Repr

/-- Source: `Player player = { 0, 0, 0, 0 };`: the value of the global before `setup()`. -/
def player : Player := ⟨0, 0, 0, 0⟩

/-- The constant data the sequencer functions read: the frame table, the
animation table and the number of animations. The functions below take it as a
parameter so that the same code can be run on other playlists. -/
structure Playlist where
  NUM_ANIMATIONS : Nat
  ANIMATION_FRAME : List Nat
  animation : List Animation
deriving DecidableEq, Repr

/-- The tables compiled into the program. -/
def compiled : Playlist := ⟨NUM_ANIMATIONS, ANIMATION_FRAME, animation⟩

/-- Source: `initLeds()`: one `pinMode(LED_PIN[i], OUTPUT)` for `i = 0 .. NUM_LEDS-1`. -/
def initLeds : List PinEvent :=
  (List.range NUM_LEDS).map fun i => PinEvent.pinMode (LED_PIN.getD i 0) OUTPUT

/-- Source: `ledWrite(pattern)`: one `digitalWrite(LED_PIN[i], pattern & (1 << i))` for
`i = 0 .. NUM_LEDS-1`; the second argument of `digitalWrite` is a `uint8_t`. -/
def ledWrite (pattern : Nat) : List PinEvent :=
  (List.range NUM_LEDS).map fun i =>
    PinEvent.digitalWrite (LED_PIN.getD i 0) ((pattern &&& (1 <<< i)) % 256)

/-- Source: `startAnimation(index)`: sets the three cursor fields, nothing else. -/
def startAnimation (index : Nat) (p : Player) : Player :=
  { p with animation_id := index, repeat_ := 0, frame := 0 }

/-- Source: `playAnimation()` on the tables `T`: the new player and the pin events, or
`none` when a table is read out of range (or `% 0` is evaluated). -/
def playAnimationOn (T : Playlist) (p : Player) : Option (Player × List PinEvent) :=
  match T.animation[p.animation_id]? with
  | none => none
  | some pAnimation =>
    match T.ANIMATION_FRAME[pAnimation.start + p.frame]? with
    | none => none
    | some frame =>
      let out := ledWrite frame
      if p.frame + 1 < pAnimation.frames then
        some ({ p with frame := (p.frame + 1) % 256 }, out)
      else if p.repeat_ + 1 < pAnimation.repeat_ then
        some ({ p with frame := 0, repeat_ := (p.repeat_ + 1) % 256 }, out)
      else if T.NUM_ANIMATIONS = 0 then
        none
      else
        let id := ((p.animation_id + 1) % 256) % T.NUM_ANIMATIONS
        some (startAnimation id { p with animation_id := id }, out)

/-- Source: `playAnimation()` of the program. -/
def playAnimation (p : Player) : Option (Player × List PinEvent) :=
  playAnimationOn compiled p

/-- Source: `setup()` when `millis()` returns `t0`, from the player value `p`. -/
def setupFrom (p : Player) (t0 : Nat) : Player × List PinEvent :=
  ({ startAnimation 0 p with last_ms := t0 }, initLeds)

/-- Source: `setup()` of the program, run on the initial value of the global `player`. -/
def setup (t0 : Nat) : Player × List PinEvent :=
  setupFrom player t0

/-- Source: `now - player.last_ms` in `uint32_t` arithmetic. -/
def elapsed (now last_ms : Nat) : Nat :=
  (now + 4294967296 - last_ms) % 4294967296

/-- Source: `loop()` on the tables `T` when `millis()` returns `now`. -/
def loopOn (T : Playlist) (p : Player) (now : Nat) : Option (Player × List PinEvent) :=
  match T.animation[p.animation_id]? with
  | none => none
  | some pAnimation =>
    if elapsed now p.last_ms > pAnimation.frame_delay_ms then
      match playAnimationOn T p with
      | none => none
      | some (p', out) => some ({ p' with last_ms := now }, out)
    else
      some (p, [])

/-- Source: `loop()` of the program. -/
def loop (p : Player) (now : Nat) : Option (Player × List PinEvent) :=
  loopOn compiled p now

/-- Successive calls of `playAnimation()`: the final player and the events of
each call, or `none` as soon as one call is undefined. -/
def playManyOn (T : Playlist) : Nat → Player → Option (Player × List (List PinEvent))
  | 0, p => some (p, [])
  | n + 1, p =>
    match playAnimationOn T p with
    | none => none
    | some (p', out) =>
      match playManyOn T n p' with
      | none => none
      | some (q, outs) => some (q, out :: outs)

/-- Successive calls of `loop()`, one for each clock value read. -/
def loopManyOn (T : Playlist) : List Nat → Player → Option (Player × List (List PinEvent))
  | [], p => some (p, [])
  | now :: rest, p =>
    match loopOn T p now with
    | none => none
    | some (p', out) =>
      match loopManyOn T rest p' with
      | none => none
      | some (q, outs) => some (q, out :: outs)

/-- The program run: `setup()` with the clock at `t0`, then one `loop()` for
each value of `clocks`. Returns the final player state. -/
def run (t0 : Nat) (clocks : List Nat) : Option Player :=
  (loopManyOn compiled clocks (setup t0).1).map Prod.fst

/-- The cursor of `p` is inside the tables of `T`. -/
def InBounds (T : Playlist) (p : Player) : Prop :=
  p.animation_id < T.NUM_ANIMATIONS ∧
  ∃ a, T.animation[p.animation_id]? = some a ∧ p.frame < a.frames ∧ p.repeat_ < a.repeat_

instance (T : Playlist) (p : Player) : Decidable (InBounds T p) := by
  unfold InBounds
  cases h : T.animation[p.animation_id]? with
  | none => exact isFalse (by simp)
  | some a =>
    exact decidable_of_iff
      (p.animation_id < T.NUM_ANIMATIONS ∧ p.frame < a.frames ∧ p.repeat_ < a.repeat_)
      (by simp)

/-- The table invariant of a playlist: as many records as `NUM_ANIMATIONS`, each
one with at least one frame, at least one repeat and its frame range inside the
frame table; all values fit the `uint8_t` fields that hold them. -/
def TableInvariant (T : Playlist) : Prop :=
  T.animation.length = T.NUM_ANIMATIONS ∧ T.NUM_ANIMATIONS < 256 ∧
  ∀ a ∈ T.animation, 1 ≤ a.frames ∧ 1 ≤ a.repeat_ ∧
    a.start + a.frames ≤ T.ANIMATION_FRAME.length ∧
    a.start < 256 ∧ a.frames < 256 ∧ a.frame_delay_ms < 256 ∧ a.repeat_ < 256

instance (T : Playlist) : Decidable (TableInvariant T) := by
  unfold TableInvariant
  infer_instance

/-- The transition rule of the specification, written from its words: if
`frame_index + 1 < frame_count`, increment `frame_index`; else if
`repeat_index + 1 < repeat_count`, reset `frame_index` to 0 and increment
`repeat_index`; else `animation_index` becomes `(animation_index + 1) mod n`
and `frame_index` and `repeat_index` are reset to 0. -/
def advanceRule (a : Animation) (n : Nat) (p : Player) : Player :=
  if p.frame + 1 < a.frames then
    { p with frame := p.frame + 1 }
  else if p.repeat_ + 1 < a.repeat_ then
    { p with frame := 0, repeat_ := p.repeat_ + 1 }
  else
    { p with animation_id := (p.animation_id + 1) % n, frame := 0, repeat_ := 0 }

/-- The player state `k` advance steps after the start of animation `id`, `a`
being the record of that animation: the closed form used to follow one pass. -/
def passState (T : Playlist) (id : Nat) (a : Animation) (ms k : Nat) : Player :=
  if k < a.frames * a.repeat_ then
    { animation_id := id, repeat_ := k / a.frames, frame := k % a.frames, last_ms := ms }
  else
    { animation_id := (id + 1) % T.NUM_ANIMATIONS, repeat_ := 0, frame := 0, last_ms := ms }

/-- A playlist of one animation made of one frame shown once. -/
def singleFramePlaylist : Playlist := ⟨1, [0b00000001], [⟨0, 1, 40, 1⟩]⟩

/-- The playlist of the first scenario: one animation (start 0, 3 frames, delay
40, repeat 2) over the frames `0b001, 0b010, 0b100`. -/
def scenario1 : Playlist := ⟨1, [0b001, 0b010, 0b100], [⟨0, 3, 40, 2⟩]⟩

/-- A playlist of the second scenario: a first animation of 2 frames shown
once, a second animation of 1 frame shown once. -/
def scenario2 : Playlist := ⟨2, [0b01, 0b10, 0b11], [⟨0, 2, 40, 1⟩, ⟨2, 1, 40, 1⟩]⟩

/-- The clock values of a run that renders at every `loop()`: the `n` dates
`step, 2 * step, ..., n * step`. -/
def everyMs (step n : Nat) : List Nat :=
  (List.range n).map fun k => step * (k + 1)

end AnimationsV2

/-- Whether the event is a call of `digitalWrite`. -/
def PinEvent.isDigitalWrite : PinEvent → Bool
  | PinEvent.digitalWrite _ _ => true
  | PinEvent.pinMode _ _ => false

/-- The level a call of `digitalWrite(pin, val)` drives the pin to: `LOW` when
`val` is 0, `HIGH` for every other value (`true` stands for `HIGH`). -/
def PinEvent.level : PinEvent → Option (Nat × Bool)
  | PinEvent.digitalWrite pin val => some (pin, val != 0)
  | PinEvent.pinMode _ _ => none

/-- The Arduino core constant `HIGH`. -/
def HIGH : Nat := 1

/-- The Arduino core constant `LOW`. -/
def LOW : Nat := 0

/-- The effect of one event on the levels of the pins (`lines pin` is `true`
when the pin is `HIGH`): `digitalWrite(pin, val)` sets the level of `pin` and of
no other pin; `pinMode` leaves the levels as they are. -/
def PinEvent.apply (lines : Nat → Bool) : PinEvent → Nat → Bool
  | PinEvent.digitalWrite pin val => fun x => if x = pin then val != 0 else lines x
  | PinEvent.pinMode _ _ => lines

/-- The levels of the pins after a list of events, in program order. -/
def applyEvents (lines : Nat → Bool) (events : List PinEvent) : Nat → Bool :=
  events.foldl PinEvent.apply lines

/-- The iterations of a run that wrote something, in order: the event lists of
the `loop()` calls, without the empty ones. -/
def rendered (outs : List (List PinEvent)) : List (List PinEvent) :=
  outs.filter fun out => !out.isEmpty

namespace BinaryCounter

/-- Source: `const uint8_t NUM_LEDS = 8;` (`05-binary-counter.h`). -/
def NUM_LEDS : Nat := 8

/-- Source: `const uint8_t LED_PIN[] = { 5, 6, 7, 8, 9, 10, 11, 12 };` -/
def LED_PIN : List Nat := [5, 6, 7, 8, 9, 10, 11, 12]

/-- Source: `ledWrite(n)` of the binary counter: one
`digitalWrite(LED_PIN[i], (n >> i) & 0x1)` for `i = 0 .. NUM_LEDS-1`. -/
def ledWrite (n : Nat) : List PinEvent :=
  (List.range NUM_LEDS).map fun i =>
    PinEvent.digitalWrite (LED_PIN.getD i 0) (((n >>> i) &&& 0x1) % 256)

/-- Source: `const uint8_t STEP_DURATION_MS = 100;` -/
def STEP_DURATION_MS : Nat := 100

/-- The global variables of the binary counter: the `uint32_t` date
`last_step_ms` and the `uint8_t` `counter`. -/
structure State where
  last_step_ms : Nat
  counter : Nat
deriving DecidableEq, Repr

/-- Source: `uint32_t last_step_ms = 0; uint8_t counter = 0;` -/
def initial : State := ⟨0, 0⟩

/-- Source: `setup()` of the binary counter when `millis()` returns `t0`. -/
def setup (s : State) (t0 : Nat) : State × List PinEvent :=
  ({ s with last_step_ms := t0 },
    (List.range NUM_LEDS).map fun i => PinEvent.pinMode (LED_PIN.getD i 0) OUTPUT)

/-- Source: `now - last_step_ms` in `uint32_t` arithmetic. -/
def elapsed (now last_ms : Nat) : Nat :=
  (now + 4294967296 - last_ms) % 4294967296

/-- Source: `loop()` of the binary counter when `millis()` returns `now`:
`ledWrite(counter++)` then `last_step_ms = now`, when the step duration is over. -/
def loop (s : State) (now : Nat) : State × List PinEvent :=
  if elapsed now s.last_step_ms > STEP_DURATION_MS then
    ({ last_step_ms := now, counter := (s.counter + 1) % 256 }, ledWrite s.counter)
  else
    (s, [])

/-- Successive calls of `loop()`, one for each clock value read. -/
def loopMany : List Nat → State → State × List (List PinEvent)
  | [], s => (s, [])
  | now :: rest, s =>
    ((loopMany rest (loop s now).1).1, (loop s now).2 :: (loopMany rest (loop s now).1).2)

/-- The run of the binary counter: `setup()` with the clock at `t0`, then one
`loop()` for each value of `clocks`. -/
def run (t0 : Nat) (clocks : List Nat) : State × List (List PinEvent) :=
  loopMany clocks (setup initial t0).1

/-- The outcome of the elapsed-time test `now - last_step_ms > STEP_DURATION_MS`
of successive `loop()` calls, one for each clock value read, from the date
`last_step_ms`: the date becomes `now` when the test succeeds
(`last_step_ms = now;`) and is kept when it fails. -/
def tests : Nat → List Nat → List Bool
  | _, [] => []
  | last_step_ms, now :: rest =>
    if elapsed now last_step_ms > STEP_DURATION_MS then true :: tests now rest
    else false :: tests last_step_ms rest

end BinaryCounter

namespace AnimationsV1

/-- Source: `const uint8_t NUM_LEDS = 8;` (`07-animations-v1.h`). -/
def NUM_LEDS : Nat := 8

/-- Source: `const uint8_t LED_PIN[] = { 5, 6, 7, 8, 9, 10, 11, 12 };` -/
def LED_PIN : List Nat := [5, 6, 7, 8, 9, 10, 11, 12]

/-- Source: `const uint8_t NUM_ANIMATIONS = 8;` -/
def NUM_ANIMATIONS : Nat := 8

/-- Source: `const uint8_t ANIMATION_FRAME[]` of the first version. -/
def ANIMATION_FRAME : List Nat := [
  -- animation #0
  0b10000000, 0b01000000, 0b00100000, 0b00010000, 0b00001000, 0b00000100, 0b00000010,
  0b00000001, 0b00000010, 0b00000100, 0b00001000, 0b00010000, 0b00100000, 0b01000000,
  -- animation #1
  0b10000001, 0b01000010, 0b00100100, 0b00011000, 0b00100100, 0b01000010,
  -- animation #2
  0b11100000, 0b01110000, 0b00111000, 0b00011100, 0b00001110, 0b00000111, 0b00001110,
  0b00011100, 0b00111000, 0b01110000,
  -- animation #3
  0b00000000, 0b00011000, 0b00111100, 0b01111110, 0b11111111, 0b01111110, 0b00111100,
  0b00011000,
  -- animation #4
  0b01010101, 0b10101010,
  -- animation #5
  0b00010001, 0b00100010, 0b01000100, 0b10001000,
  -- animation #6
  0b00000001, 0b00000010, 0b00000100, 0b00001000, 0b00010000, 0b00100000, 0b01000000,
  0b10000000,
  -- animation #7
  0b00000000, 0b00010000, 0b00001000, 0b00010000, 0b00100000, 0b00010000, 0b00001000,
  0b00000100, 0b00001000, 0b00010000, 0b00100000, 0b01000000, 0b00100000, 0b00010000,
  0b00001000, 0b00000100, 0b00000010, 0b00000100, 0b00001000, 0b00010000, 0b00100000,
  0b01000000, 0b10000000, 0b01000000, 0b00100000, 0b00010000, 0b00001000, 0b00000100,
  0b00000010, 0b00000001, 0b00000010, 0b00000100, 0b00001000, 0b00010000, 0b00100000,
  0b01000000, 0b10000000]

/-- Source: `const uint8_t ANIMATION_START[]`. -/
def ANIMATION_START : List Nat := [0, 14, 20, 30, 38, 40, 44, 52]

/-- Source: `const uint8_t ANIMATION_FRAMES[]`. -/
def ANIMATION_FRAMES : List Nat := [14, 6, 10, 8, 2, 4, 8, 37]

/-- Source: `const uint8_t ANIMATION_DELAY_MS[]`. -/
def ANIMATION_DELAY_MS : List Nat := [40, 50, 50, 50, 120, 80, 60, 40]

/-- Source: `const uint8_t ANIMATION_REPEAT[]`. -/
def ANIMATION_REPEAT : List Nat := [4, 8, 5, 6, 10, 8, 7, 1]

/-- The global variables of the first version: seven `uint8_t` and the
`uint32_t` date `player_last_ms`. -/
structure State where
  animation_id : Nat
  animation_start : Nat
  animation_frames : Nat
  animation_delay_ms : Nat
  animation_repeat : Nat
  player_frame : Nat
  player_repeat : Nat
  player_last_ms : Nat
deriving DecidableEq, Repr

/-- The globals before `setup()`: declared without initialiser, hence zero. -/
def initial : State := ⟨0, 0, 0, 0, 0, 0, 0, 0⟩

/-- Source: `initLeds()`: one `pinMode(LED_PIN[i], OUTPUT)` for `i = 0 .. NUM_LEDS-1`. -/
def initLeds : List PinEvent :=
  (List.range NUM_LEDS).map fun i => PinEvent.pinMode (LED_PIN.getD i 0) OUTPUT

/-- Source: `ledWrite(pattern)`: one `digitalWrite(LED_PIN[i], pattern & (1 << i))` for
`i = 0 .. NUM_LEDS-1`. -/
def ledWrite (pattern : Nat) : List PinEvent :=
  (List.range NUM_LEDS).map fun i =>
    PinEvent.digitalWrite (LED_PIN.getD i 0) ((pattern &&& (1 <<< i)) % 256)

/-- Source: `startAnimation(index)`: loads the four cached values from the
tables and resets the cursor; `none` when `index` is outside a table. -/
def startAnimation (index : Nat) (s : State) : Option State :=
  match ANIMATION_START[index]?, ANIMATION_FRAMES[index]?, ANIMATION_DELAY_MS[index]?,
      ANIMATION_REPEAT[index]? with
  | some start, some frames, some delay_ms, some repeat_ =>
    some { s with
      animation_id := index, animation_start := start, animation_frames := frames,
      animation_delay_ms := delay_ms, animation_repeat := repeat_,
      player_frame := 0, player_repeat := 0 }
  | _, _, _, _ => none

/-- Source: `playAnimation()` of the first version. -/
def playAnimation (s : State) : Option (State × List PinEvent) :=
  match ANIMATION_FRAME[s.animation_start + s.player_frame]? with
  | none => none
  | some frame =>
    let out := ledWrite frame
    if s.player_frame + 1 < s.animation_frames then
      some ({ s with player_frame := (s.player_frame + 1) % 256 }, out)
    else if s.player_repeat + 1 < s.animation_repeat then
      some ({ s with player_frame := 0, player_repeat := (s.player_repeat + 1) % 256 }, out)
    else
      let id := ((s.animation_id + 1) % 256) % NUM_ANIMATIONS
      match startAnimation id { s with animation_id := id } with
      | none => none
      | some s' => some (s', out)

/-- Source: `setup()` of the first version when `millis()` returns `t0`. -/
def setup (t0 : Nat) : Option (State × List PinEvent) :=
  match startAnimation 0 initial with
  | none => none
  | some s => some ({ s with player_last_ms := t0 }, initLeds)

/-- Source: `now - player_last_ms` in `uint32_t` arithmetic. -/
def elapsed (now last_ms : Nat) : Nat :=
  (now + 4294967296 - last_ms) % 4294967296

/-- Source: `loop()` of the first version when `millis()` returns `now`. -/
def loop (s : State) (now : Nat) : Option (State × List PinEvent) :=
  if elapsed now s.player_last_ms > s.animation_delay_ms then
    match playAnimation s with
    | none => none
    | some (s', out) => some ({ s' with player_last_ms := now }, out)
  else
    some (s, [])

/-- Successive calls of `loop()`, one for each clock value read. -/
def loopMany : List Nat → State → Option (State × List (List PinEvent))
  | [], s => some (s, [])
  | now :: rest, s =>
    match loop s now with
    | none => none
    | some (s', out) =>
      match loopMany rest s' with
      | none => none
      | some (q, outs) => some (q, out :: outs)

/-- The run of the first version: `setup()` with the clock at `t0`, then one
`loop()` for each value of `clocks`. Returns the final globals and the events
of each `loop()`. -/
def run (t0 : Nat) (clocks : List Nat) : Option (State × List (List PinEvent)) :=
  match setup t0 with
  | none => none
  | some (s, _) => loopMany clocks s

/-- The `(animation_id, repeat, frame, last_ms)` part of the globals, as a
player of the second version. -/
def toPlayer (s : State) : AnimationsV2.Player :=
  ⟨s.animation_id, s.player_repeat, s.player_frame, s.player_last_ms⟩

/-- The cached values are those of the tables at `animation_id`, and the cursor
is inside the current animation. -/
def Cached (s : State) : Prop :=
  s.animation_id < NUM_ANIMATIONS ∧
  ANIMATION_START[s.animation_id]? = some s.animation_start ∧
  ANIMATION_FRAMES[s.animation_id]? = some s.animation_frames ∧
  ANIMATION_DELAY_MS[s.animation_id]? = some s.animation_delay_ms ∧
  ANIMATION_REPEAT[s.animation_id]? = some s.animation_repeat ∧
  s.player_frame < s.animation_frames ∧ s.player_repeat < s.animation_repeat

instance (s : State) : Decidable (Cached s) := by
  unfold Cached
  infer_instance

end AnimationsV1

namespace SimpleAnimation

/-- Source: `const uint8_t NUM_LEDS = 8;` (`06-simple-animation.h`). -/
def NUM_LEDS : Nat := 8

/-- Source: `const uint8_t LED_PIN[] = { 5, 6, 7, 8, 9, 10, 11, 12 };` -/
def LED_PIN : List Nat := [5, 6, 7, 8, 9, 10, 11, 12]

/-- Source: `const uint8_t ANIMATION_STEPS = 10;` -/
def ANIMATION_STEPS : Nat := 10

/-- Source: `const uint8_t ANIMATION[]`: the ten steps of the animation. -/
def ANIMATION : List Nat := [
  0b11100000, -- step #0
  0b01110000, -- step #1
  0b00111000, -- step #2
  0b00011100, -- step #3
  0b00001110, -- step #4
  0b00000111, -- step #5
  0b00001110, -- step #6
  0b00011100, -- step #7
  0b00111000, -- step #8
  0b01110000] -- step #9

/-- Source: `const uint8_t ANIMATION_STEP_DURATION_MS = 100;` -/
def ANIMATION_STEP_DURATION_MS : Nat := 100

/-- The global variables of the simple animation: the `uint8_t`
`animation_step` and the `uint32_t` date `last_animation_step_ms`. -/
structure State where
  animation_step : Nat
  last_animation_step_ms : Nat
deriving DecidableEq, Repr

/-- Source: `uint8_t animation_step = 0; uint32_t last_animation_step_ms = 0;` -/
def initial : State := ⟨0, 0⟩

/-- Source: `ledWrite(n)`: one `digitalWrite(LED_PIN[i], n & (1 << i))` for
`i = 0 .. NUM_LEDS-1`. -/
def ledWrite (n : Nat) : List PinEvent :=
  (List.range NUM_LEDS).map fun i =>
    PinEvent.digitalWrite (LED_PIN.getD i 0) ((n &&& (1 <<< i)) % 256)

/-- Source: `setup()` of the simple animation when `millis()` returns `t0`. -/
def setup (s : State) (t0 : Nat) : State × List PinEvent :=
  ({ s with last_animation_step_ms := t0 },
    (List.range NUM_LEDS).map fun i => PinEvent.pinMode (LED_PIN.getD i 0) OUTPUT)

/-- Source: `now - last_animation_step_ms` in `uint32_t` arithmetic. -/
def elapsed (now last_ms : Nat) : Nat :=
  (now + 4294967296 - last_ms) % 4294967296

/-- Source: `loop()` of the simple animation when `millis()` returns `now`;
`none` when `ANIMATION` is read out of range. -/
def loop (s : State) (now : Nat) : Option (State × List PinEvent) :=
  if elapsed now s.last_animation_step_ms > ANIMATION_STEP_DURATION_MS then
    match ANIMATION[s.animation_step]? with
    | none => none
    | some n =>
      some ({ animation_step := ((s.animation_step + 1) % 256) % ANIMATION_STEPS,
              last_animation_step_ms := now }, ledWrite n)
  else
    some (s, [])

/-- Successive calls of `loop()`, one for each clock value read. -/
def loopMany : List Nat → State → Option (State × List (List PinEvent))
  | [], s => some (s, [])
  | now :: rest, s =>
    match loop s now with
    | none => none
    | some (s', out) =>
      match loopMany rest s' with
      | none => none
      | some (q, outs) => some (q, out :: outs)

/-- The run of the simple animation: `setup()` with the clock at `t0`, then one
`loop()` for each value of `clocks`. -/
def run (t0 : Nat) (clocks : List Nat) : Option (State × List (List PinEvent)) :=
  loopMany clocks (setup initial t0).1

/-- The outcome of the elapsed-time test
`now - last_animation_step_ms > ANIMATION_STEP_DURATION_MS` of successive
`loop()` calls, one for each clock value read, from the date
`last_animation_step_ms`: the date becomes `now` when the test succeeds and is
kept when it fails. -/
def tests : Nat → List Nat → List Bool
  | _, [] => []
  | last_ms, now :: rest =>
    if elapsed now last_ms > ANIMATION_STEP_DURATION_MS then true :: tests now rest
    else false :: tests last_ms rest

end SimpleAnimation

namespace RevisedBlink

/-- Source: `const uint8_t LED_PIN = 5;` (`04-revised-blink.h`). -/
def LED_PIN : Nat := 5

/-- Source: `const uint8_t FLASH_DURATION_MS = 100;` -/
def FLASH_DURATION_MS : Nat := 100

/-- Source: `const uint16_t FLASHING_PERIOD_MS = 1000;` -/
def FLASHING_PERIOD_MS : Nat := 1000

/-- Source: `setup()` of the revised blink. -/
def setup : List PinEvent := [PinEvent.pinMode LED_PIN OUTPUT]

/-- Source: `loop()` of the revised blink when `millis()` returns `now`:
`digitalWrite(LED_PIN, (millis() % FLASHING_PERIOD_MS) < FLASH_DURATION_MS)`;
the comparison yields 1 or 0. -/
def loop (now : Nat) : List PinEvent :=
  [PinEvent.digitalWrite LED_PIN
    (if now % FLASHING_PERIOD_MS < FLASH_DURATION_MS then 1 else 0)]

end RevisedBlink

namespace TwoWayScanning

/-- Source: `const uint8_t NUM_LEDS = 8;` (`03-two-way-scanning.h`). -/
def NUM_LEDS : Nat := 8

/-- Source: `const uint8_t LED_PIN[] = { 5, 6, 7, 8, 9, 10, 11, 12 };` -/
def LED_PIN : List Nat := [5, 6, 7, 8, 9, 10, 11, 12]

/-- Source: `const uint8_t FLASH_DURATION_MS = 40;` -/
def FLASH_DURATION_MS : Nat := 40

/-- The global variables of the two-way scanning: the `uint8_t` `active_pin`,
the `int8_t` `direction` and the `uint32_t` date `last_shift_ms`. -/
structure State where
  active_pin : Nat
  direction : Int
  last_shift_ms : Nat
deriving DecidableEq, Repr

/-- Source: `uint8_t active_pin = 0; int8_t direction = 1; uint32_t last_shift_ms = 0;` -/
def initial : State := ⟨0, 1, 0⟩

/-- Conversion of an `int` value to `int8_t` (two's complement). -/
def toInt8 (x : Int) : Int :=
  (x + 128) % 256 - 128

/-- Conversion of an `int` value to `uint8_t`. -/
def toUInt8 (x : Int) : Nat :=
  (x % 256).toNat

/-- Source: `setup()` of the two-way scanning when `millis()` returns `t0`;
`none` when `LED_PIN` is read out of range. -/
def setup (s : State) (t0 : Nat) : Option (State × List PinEvent) :=
  match LED_PIN[s.active_pin]? with
  | none => none
  | some pin =>
    some ({ s with last_shift_ms := t0 },
      ((List.range NUM_LEDS).map fun i => PinEvent.pinMode (LED_PIN.getD i 0) OUTPUT) ++
        [PinEvent.digitalWrite pin HIGH])

/-- Source: `millis() - last_shift_ms` in `uint32_t` arithmetic. -/
def elapsed (now last_ms : Nat) : Nat :=
  (now + 4294967296 - last_ms) % 4294967296

/-- Source: `loop()` of the two-way scanning; `now` is the value `millis()`
returns at the start and `now2` the value it returns when `last_shift_ms` is
saved. `none` when `LED_PIN` is read out of range. -/
def loop (s : State) (now now2 : Nat) : Option (State × List PinEvent) :=
  let t := elapsed now s.last_shift_ms
  if t > FLASH_DURATION_MS then
    match LED_PIN[s.active_pin]? with
    | none => none
    | some pinOff =>
      let direction :=
        if (s.direction = -1 ∧ s.active_pin = 0) ∨
            (s.direction = 1 ∧ (s.active_pin : Int) = (NUM_LEDS : Int) - 1) then
          toInt8 (s.direction * -1)
        else s.direction
      let active_pin := toUInt8 ((s.active_pin : Int) + direction)
      match LED_PIN[active_pin]? with
      | none => none
      | some pinOn =>
        some ({ active_pin := active_pin, direction := direction, last_shift_ms := now2 },
          [PinEvent.digitalWrite pinOff LOW, PinEvent.digitalWrite pinOn HIGH])
  else
    some (s, [])

/-- Successive calls of `loop()`, one for each pair of clock values read. -/
def loopMany : List (Nat × Nat) → State → Option (State × List (List PinEvent))
  | [], s => some (s, [])
  | (now, now2) :: rest, s =>
    match loop s now now2 with
    | none => none
    | some (s', out) =>
      match loopMany rest s' with
      | none => none
      | some (q, outs) => some (q, out :: outs)

/-- The run of the two-way scanning: `setup()` with the clock at `t0`, then one
`loop()` for each pair of `clocks`. Returns the final globals, the events of
`setup()` and the events of each `loop()`. -/
def run (t0 : Nat) (clocks : List (Nat × Nat)) :
    Option (State × List PinEvent × List (List PinEvent)) :=
  match setup initial t0 with
  | none => none
  | some (s0, ev) =>
    match loopMany clocks s0 with
    | none => none
    | some (s, outs) => some (s, ev, outs)

/-- The outcome of the test `millis() - last_shift_ms > FLASH_DURATION_MS` of
successive `loop()` calls, one for each pair of clock values read, from the date
`last_shift_ms`: the date becomes the second value read when the test succeeds
(`last_shift_ms = millis();`) and is kept when it fails. -/
def tests : Nat → List (Nat × Nat) → List Bool
  | _, [] => []
  | last_shift_ms, (now, now2) :: rest =>
    if elapsed now last_shift_ms > FLASH_DURATION_MS then true :: tests now2 rest
    else false :: tests last_shift_ms rest

/-- The state after `k` shifts is on the triangular wave: going up on
`1 .. 7` (and at the start), going down on `6 .. 0`. -/
def OnWave (s : State) (k : Nat) : Prop :=
  (s.direction = 1 ∧ s.active_pin = k % 14 ∧ k % 14 ≤ 7) ∨
  (s.direction = -1 ∧ s.active_pin + k % 14 = 14 ∧ 7 < k % 14) ∨
  (s.direction = -1 ∧ s.active_pin = 0 ∧ k % 14 = 0)

end TwoWayScanning

namespace OneWayScanning

/-- Source: `const uint8_t NUM_LEDS = 8;` (`02-one-way-scanning.h`). -/
def NUM_LEDS : Nat := 8

/-- Source: `const uint8_t LED_PIN[] = { 5, 6, 7, 8, 9, 10, 11, 12 };` -/
def LED_PIN : List Nat := [5, 6, 7, 8, 9, 10, 11, 12]

/-- What `loop()` of the one-way scanning does, step by step: a call that acts
on a pin, or a call of `delay(ms)`. -/
inductive Step where
  | pin (e : PinEvent)
  | delay (ms : Nat)
deriving DecidableEq, Repr

/-- Source: `setup()` of the one-way scanning: one `pinMode(LED_PIN[i], OUTPUT)`
for `i = 0 .. NUM_LEDS-1`. -/
def setup : List PinEvent :=
  (List.range NUM_LEDS).map fun i => PinEvent.pinMode (LED_PIN.getD i 0) OUTPUT

/-- The body of the `for` of `loop()` for one `i`: `digitalWrite(LED_PIN[i],
HIGH); delay(40); digitalWrite(LED_PIN[i], LOW);`. -/
def flash (i : Nat) : List Step :=
  [Step.pin (PinEvent.digitalWrite (LED_PIN.getD i 0) HIGH),
   Step.delay 40,
   Step.pin (PinEvent.digitalWrite (LED_PIN.getD i 0) LOW)]

/-- Source: `loop()` of the one-way scanning: the body for `i = 0 .. NUM_LEDS-1`. -/
def loop : List Step :=
  ((List.range NUM_LEDS).map flash).flatten

/-- The effect of one step on the levels of the pins: `delay` changes none. -/
def Step.apply (lines : Nat → Bool) : Step → Nat → Bool
  | Step.pin e => PinEvent.apply lines e
  | Step.delay _ => lines

/-- The levels of the pins after a list of steps, in program order. -/
def applySteps (lines : Nat → Bool) (steps : List Step) : Nat → Bool :=
  steps.foldl Step.apply lines

/-- The number of LEDs that are on. -/
def ledsOn (lines : Nat → Bool) : Nat :=
  (LED_PIN.filter lines).length

end OneWayScanning

/-! ## Helper lemmas -/

namespace AnimationsV2

lemma compiled_tableInvariant : TableInvariant compiled := by decide

lemma ledWrite_length (pattern : Nat) : (ledWrite pattern).length = 8 := by
  simp [ledWrite, NUM_LEDS]

lemma ledWrite_ne_nil (pattern : Nat) : ledWrite pattern ≠ [] := by
  intro h
  have := ledWrite_length pattern
  rw [h] at this
  simp at this

lemma elapsed_eq_int {now last_ms : Nat} (hl : last_ms < 4294967296) :
    ((elapsed now last_ms : Nat) : Int) = ((now : Int) - (last_ms : Int)) % 4294967296 := by
  unfold elapsed
  omega

/-- On a state whose cursor is inside the tables, `playAnimation()` is defined,
writes the frame under the cursor and moves the cursor by the transition rule. -/
lemma playAnimationOn_of_inBounds {T : Playlist} (hT : TableInvariant T) {p : Player}
    {a : Animation} (hid : p.animation_id < T.NUM_ANIMATIONS)
    (ha : T.animation[p.animation_id]? = some a) (hf : p.frame < a.frames) :
    ∃ frame, T.ANIMATION_FRAME[a.start + p.frame]? = some frame ∧
      playAnimationOn T p = some (advanceRule a T.NUM_ANIMATIONS p, ledWrite frame) := by
  obtain ⟨hlen, hN, hall⟩ := hT
  obtain ⟨h1, h2, h3, h4, h5, h6, h7⟩ := hall a (List.getElem?_mem ha)
  have hlt : a.start + p.frame < T.ANIMATION_FRAME.length := by omega
  refine ⟨T.ANIMATION_FRAME[a.start + p.frame], List.getElem?_eq_getElem hlt, ?_⟩
  unfold playAnimationOn advanceRule
  simp only [ha, List.getElem?_eq_getElem hlt]
  split_ifs with c1 c2 c3
  · rw [Nat.mod_eq_of_lt (by omega)]
  · rw [Nat.mod_eq_of_lt (by omega)]
  · omega
  · simp only [startAnimation]
    rw [Nat.mod_eq_of_lt (show p.animation_id + 1 < 256 by omega)]

/-- The transition rule keeps the cursor inside the tables. -/
lemma advanceRule_inBounds {T : Playlist} (hT : TableInvariant T) {p : Player}
    {a : Animation} (hid : p.animation_id < T.NUM_ANIMATIONS)
    (ha : T.animation[p.animation_id]? = some a) (hf : p.frame < a.frames)
    (hr : p.repeat_ < a.repeat_) :
    InBounds T (advanceRule a T.NUM_ANIMATIONS p) := by
  obtain ⟨hlen, hN, hall⟩ := hT
  unfold advanceRule
  split_ifs with c1 c2
  · exact ⟨hid, a, ha, c1, hr⟩
  · exact ⟨hid, a, ha, (show 0 < a.frames by omega), c2⟩
  · have hlt : (p.animation_id + 1) % T.NUM_ANIMATIONS < T.NUM_ANIMATIONS :=
      Nat.mod_lt _ (by omega)
    have hlt2 : (p.animation_id + 1) % T.NUM_ANIMATIONS < T.animation.length := by omega
    obtain ⟨h1, h2, -⟩ := hall _ (List.getElem_mem hlt2)
    exact ⟨hlt, _, List.getElem?_eq_getElem hlt2, by simpa using h1, by simpa using h2⟩

/-- One `loop()` on a state whose cursor is inside the tables. -/
lemma loopOn_of_inBounds {T : Playlist} (hT : TableInvariant T) {p : Player}
    {a : Animation} (hid : p.animation_id < T.NUM_ANIMATIONS)
    (ha : T.animation[p.animation_id]? = some a) (hf : p.frame < a.frames) (now : Nat) :
    ∃ frame, T.ANIMATION_FRAME[a.start + p.frame]? = some frame ∧
      playAnimationOn T p = some (advanceRule a T.NUM_ANIMATIONS p, ledWrite frame) ∧
      loopOn T p now =
        if elapsed now p.last_ms > a.frame_delay_ms then
          some ({ advanceRule a T.NUM_ANIMATIONS p with last_ms := now }, ledWrite frame)
        else some (p, []) := by
  obtain ⟨frame, hfr, hplay⟩ := playAnimationOn_of_inBounds hT hid ha hf
  refine ⟨frame, hfr, hplay, ?_⟩
  unfold loopOn
  simp only [ha, hplay]

lemma advanceRule_last_ms (a : Animation) (n : Nat) (p : Player) :
    (advanceRule a n p).last_ms = p.last_ms := by
  unfold advanceRule
  split_ifs <;> rfl

/-! ## The advance step and the tick -/

/-- C1: from every in-bounds player state, `playAnimation()` is defined and the
new state follows the three-way rule in priority order: if `frame + 1 < frames`
then `frame` is incremented and `repeat` and `animation_id` are unchanged; else
if `repeat + 1 < repeat count` then `frame` is 0, `repeat` is incremented and
`animation_id` is unchanged; else `animation_id` is
`(animation_id + 1) mod NUM_ANIMATIONS` and `frame` and `repeat` are 0. -/
theorem playAnimation_three_way_rule (p : Player) (a : Animation)
    (hb : InBounds compiled p) (ha : animation[p.animation_id]? = some a) :
    ∃ q out, playAnimation p = some (q, out) ∧ q = advanceRule a NUM_ANIMATIONS p ∧
      q.last_ms = p.last_ms ∧
      (p.frame + 1 < a.frames →
        q.frame = p.frame + 1 ∧ q.repeat_ = p.repeat_ ∧ q.animation_id = p.animation_id) ∧
      (¬ p.frame + 1 < a.frames → p.repeat_ + 1 < a.repeat_ →
        q.frame = 0 ∧ q.repeat_ = p.repeat_ + 1 ∧ q.animation_id = p.animation_id) ∧
      (¬ p.frame + 1 < a.frames → ¬ p.repeat_ + 1 < a.repeat_ →
        q.animation_id = (p.animation_id + 1) % NUM_ANIMATIONS ∧ q.frame = 0 ∧
          q.repeat_ = 0) := by
  obtain ⟨hid, a', ha', hf, -⟩ := hb
  have haa : a' = a := Option.some.inj (ha'.symm.trans ha)
  subst haa
  obtain ⟨frame, -, hplay⟩ := playAnimationOn_of_inBounds compiled_tableInvariant hid ha hf
  refine ⟨_, _, hplay, rfl, advanceRule_last_ms _ _ _, ?_, ?_, ?_⟩
  · intro c1
    simp [advanceRule, c1]
  · intro c1 c2
    simp [advanceRule, c1, c2]
  · intro c1 c2
    simp [advanceRule, c1, c2, compiled]

/-- Instance at the last frame of the last repeat of animation #1: animation #2
starts. -/
theorem playAnimation_three_way_rule_witness :
    InBounds compiled ⟨1, 7, 5, 0⟩ ∧ animation[1]? = some ⟨14, 6, 50, 8⟩ ∧
      ∃ q out, playAnimation ⟨1, 7, 5, 0⟩ = some (q, out) ∧ q.animation_id = 2 ∧
        q.frame = 0 ∧ q.repeat_ = 0 := by
  refine ⟨by decide, by decide, ?_⟩
  obtain ⟨q, out, h, -, -, -, -, h3⟩ :=
    playAnimation_three_way_rule ⟨1, 7, 5, 0⟩ ⟨14, 6, 50, 8⟩ (by decide) (by decide)
  exact ⟨q, out, h, h3 (by decide) (by decide)⟩

/-- C2: from every in-bounds player state and for every clock value `now`, one
`loop()` writes to the LEDs if and only if `(now - last_ms) mod 2^32` is strictly greater than the `frame_delay_ms` of the animation at the current
`animation_id`; when it is not (equality included), nothing is written and the
whole player state is unchanged. -/
theorem loop_renders_iff_elapsed_gt_delay (p : Player) (now : Nat) (a : Animation)
    (hb : InBounds compiled p) (ha : animation[p.animation_id]? = some a)
    (hl : p.last_ms < 4294967296) :
    ∃ q out, loop p now = some (q, out) ∧
      (out ≠ [] ↔
        ((now : Int) - (p.last_ms : Int)) % 4294967296 > (a.frame_delay_ms : Int)) ∧
      (¬ ((now : Int) - (p.last_ms : Int)) % 4294967296 > (a.frame_delay_ms : Int) →
        out = [] ∧ q = p) := by
  obtain ⟨hid, a', ha', hf, -⟩ := hb
  have haa : a' = a := Option.some.inj (ha'.symm.trans ha)
  subst haa
  obtain ⟨frame, -, -, hloop⟩ :=
    loopOn_of_inBounds compiled_tableInvariant hid ha hf now
  have hel := @elapsed_eq_int now p.last_ms hl
  rw [← hel]
  by_cases c : elapsed now p.last_ms > a'.frame_delay_ms
  · rw [if_pos c] at hloop
    refine ⟨_, _, hloop, ?_, ?_⟩
    · constructor
      · intro _
        exact_mod_cast c
      · intro _
        exact ledWrite_ne_nil frame
    · intro hc
      exact absurd (by exact_mod_cast c) hc
  · rw [if_neg c] at hloop
    refine ⟨_, _, hloop, ?_, ?_⟩
    · constructor
      · intro h
        exact absurd rfl h
      · intro h
        exact absurd (by exact_mod_cast h) c
    · intro _
      exact ⟨rfl, rfl⟩

/-- Instance on the boundary: 40 ms after the last render, with a delay of 40 ms,
nothing is written and the state is unchanged. -/
theorem loop_renders_iff_elapsed_gt_delay_witness :
    InBounds compiled ⟨0, 0, 3, 1000⟩ ∧ animation[0]? = some ⟨0, 14, 40, 4⟩ ∧
      loop ⟨0, 0, 3, 1000⟩ 1040 = some (⟨0, 0, 3, 1000⟩, []) := by
  refine ⟨by decide, by decide, ?_⟩
  obtain ⟨q, out, h, -, h2⟩ :=
    loop_renders_iff_elapsed_gt_delay ⟨0, 0, 3, 1000⟩ 1040 ⟨0, 14, 40, 4⟩
      (by decide) (by decide) (by decide)
  obtain ⟨ho, hq⟩ := h2 (by decide)
  rw [h, ho, hq]

/-- C3: from every in-bounds player state, when the elapsed-time test of
`loop()` succeeds, the iteration is exactly one call of `playAnimation()`: its
events are those of the single `ledWrite` of that call (eight pin writes,
whatever the elapsed time), the cursor is the one that call leaves, and
`last_ms` is `now`. -/
theorem loop_performs_one_advance_step (p : Player) (now : Nat) (a : Animation)
    (hb : InBounds compiled p) (ha : animation[p.animation_id]? = some a)
    (he : elapsed now p.last_ms > a.frame_delay_ms) :
    ∃ q frame, ANIMATION_FRAME[a.start + p.frame]? = some frame ∧
      playAnimation p = some (q, ledWrite frame) ∧
      loop p now = some ({ q with last_ms := now }, ledWrite frame) ∧
      (ledWrite frame).length = NUM_LEDS ∧
      ({ q with last_ms := now } : Player).last_ms = now := by
  obtain ⟨hid, a', ha', hf, -⟩ := hb
  have haa : a' = a := Option.some.inj (ha'.symm.trans ha)
  subst haa
  obtain ⟨frame, hfr, hplay, hloop⟩ :=
    loopOn_of_inBounds compiled_tableInvariant hid ha hf now
  rw [if_pos he] at hloop
  exact ⟨_, frame, hfr, hplay, hloop, ledWrite_length frame, rfl⟩

/-- Instance after a very long pause: one frame only. -/
theorem loop_performs_one_advance_step_witness :
    InBounds compiled ⟨0, 0, 3, 1000⟩ ∧ animation[0]? = some ⟨0, 14, 40, 4⟩ ∧
      elapsed 900000 1000 > 40 ∧
      ∃ q frame, playAnimation ⟨0, 0, 3, 1000⟩ = some (q, ledWrite frame) ∧
        loop ⟨0, 0, 3, 1000⟩ 900000 = some ({ q with last_ms := 900000 }, ledWrite frame) := by
  refine ⟨by decide, by decide, by decide, ?_⟩
  obtain ⟨q, frame, -, h1, h2, -⟩ :=
    loop_performs_one_advance_step ⟨0, 0, 3, 1000⟩ 900000 ⟨0, 14, 40, 4⟩
      (by decide) (by decide) (by decide)
  exact ⟨q, frame, h1, h2⟩

/-- C4: from every in-bounds player state, the pattern `playAnimation()` passes
to `ledWrite` is `ANIMATION_FRAME[animation[animation_id].start + frame]` read
with the `animation_id` and `frame` of the state before the transition. -/
theorem playAnimation_renders_frame_of_prior_state (p : Player)
    (hb : InBounds compiled p) :
    ∃ a frame q, animation[p.animation_id]? = some a ∧
      ANIMATION_FRAME[a.start + p.frame]? = some frame ∧
      playAnimation p = some (q, ledWrite frame) := by
  obtain ⟨hid, a, ha, hf, -⟩ := hb
  obtain ⟨frame, hfr, hplay⟩ := playAnimationOn_of_inBounds compiled_tableInvariant hid ha hf
  exact ⟨a, frame, _, ha, hfr, hplay⟩

/-- Instance at the last frame of animation #0: the frame written is entry 13 of the
table (the state before), not entry 0 (the state after). -/
theorem playAnimation_renders_frame_of_prior_state_witness :
    InBounds compiled ⟨0, 0, 13, 0⟩ ∧
      ∃ q, playAnimation ⟨0, 0, 13, 0⟩ = some (q, ledWrite 0b01000000) := by
  refine ⟨by decide, ?_⟩
  obtain ⟨a, frame, q, ha, hfr, h⟩ :=
    playAnimation_renders_frame_of_prior_state ⟨0, 0, 13, 0⟩ (by decide)
  have ha' : a = ⟨0, 14, 40, 4⟩ := by
    have : animation[0]? = some (⟨0, 14, 40, 4⟩ : Animation) := by decide
    exact (Option.some.inj (this.symm.trans ha)).symm
  subst ha'
  have hfr' : frame = 0b01000000 := by
    have : ANIMATION_FRAME[0 + 13]? = some 0b01000000 := by decide
    exact (Option.some.inj (this.symm.trans hfr)).symm
  subst hfr'
  exact ⟨q, h⟩


lemma succ_div_mod (f k : Nat) (hf : 0 < f) :
    (k % f + 1 < f → (k + 1) / f = k / f ∧ (k + 1) % f = k % f + 1) ∧
    (¬ k % f + 1 < f → (k + 1) / f = k / f + 1 ∧ (k + 1) % f = 0) := by
  have h := Nat.div_add_mod k f
  have hm := Nat.mod_lt k hf
  constructor
  · intro c
    rw [Nat.div_mod_unique hf]
    constructor <;> omega
  · intro c
    rw [Nat.div_mod_unique hf]
    refine ⟨?_, hf⟩
    rw [Nat.mul_add]
    omega

lemma playAnimationOn_passState {T : Playlist} (hT : TableInvariant T) {id : Nat}
    {a : Animation} (ms : Nat) (hid : id < T.NUM_ANIMATIONS)
    (ha : T.animation[id]? = some a) {k : Nat} (hk : k < a.frames * a.repeat_) :
    playAnimationOn T (passState T id a ms k) =
      some (passState T id a ms (k + 1),
        ledWrite (T.ANIMATION_FRAME.getD (a.start + k % a.frames) 0)) := by
  have hf : 0 < a.frames := by
    rcases Nat.eq_zero_or_pos a.frames with h0 | h0
    · rw [h0, Nat.zero_mul] at hk; omega
    · exact h0
  have hm : k % a.frames < a.frames := Nat.mod_lt k hf
  have hq : k / a.frames < a.repeat_ := by
    rw [Nat.div_lt_iff_lt_mul hf, Nat.mul_comm]; exact hk
  have hs : passState T id a ms k =
      { animation_id := id, repeat_ := k / a.frames, frame := k % a.frames, last_ms := ms } := by
    simp [passState, hk]
  obtain ⟨frame, hfr, hplay⟩ :=
    playAnimationOn_of_inBounds (p := passState T id a ms k) hT (by rw [hs]; exact hid)
      (by rw [hs]; exact ha) (by rw [hs]; exact hm)
  rw [hplay]
  have hfr' : T.ANIMATION_FRAME.getD (a.start + k % a.frames) 0 = frame := by
    rw [hs] at hfr
    simp only at hfr
    simp [List.getD_eq_getElem?_getD, hfr]
  rw [hfr', hs]
  congr 2
  obtain ⟨d1, d2⟩ := succ_div_mod a.frames k hf
  have hlt : k + 1 < a.frames * a.repeat_ ↔ (k + 1) / a.frames < a.repeat_ := by
    rw [Nat.div_lt_iff_lt_mul hf, Nat.mul_comm]
  unfold advanceRule passState
  simp only
  by_cases c1 : k % a.frames + 1 < a.frames
  · obtain ⟨e1, e2⟩ := d1 c1
    have : k + 1 < a.frames * a.repeat_ := by rw [hlt, e1]; exact hq
    rw [if_pos c1, if_pos this, e1, e2]
  · obtain ⟨e1, e2⟩ := d2 c1
    by_cases c2 : k / a.frames + 1 < a.repeat_
    · have : k + 1 < a.frames * a.repeat_ := by rw [hlt, e1]; exact c2
      rw [if_neg c1, if_pos c2, if_pos this, e1, e2]
    · have : ¬ k + 1 < a.frames * a.repeat_ := by rw [hlt, e1]; exact c2
      rw [if_neg c1, if_neg c2, if_neg this]

lemma playManyOn_passState {T : Playlist} (hT : TableInvariant T) {id : Nat}
    {a : Animation} (ms : Nat) (hid : id < T.NUM_ANIMATIONS)
    (ha : T.animation[id]? = some a) (n k : Nat) (hk : k + n ≤ a.frames * a.repeat_) :
    playManyOn T n (passState T id a ms k) =
      some (passState T id a ms (k + n),
        (List.range n).map fun i =>
          ledWrite (T.ANIMATION_FRAME.getD (a.start + (k + i) % a.frames) 0)) := by
  induction n generalizing k with
  | zero => simp [playManyOn]
  | succ n ih =>
    have hstep := playAnimationOn_passState hT ms hid ha (k := k) (by omega)
    have hrest := ih (k + 1) (by omega)
    simp only [playManyOn, hstep, hrest, List.range_succ_eq_map, List.map_cons, List.map_map]
    refine congrArg some (Prod.ext ?_ ?_)
    · show passState T id a ms (k + 1 + n) = passState T id a ms (k + (n + 1))
      congr 1; omega
    · simp only [Nat.add_zero, List.cons.injEq, true_and]
      apply List.map_congr_left
      intro i _
      simp only [Function.comp, Nat.succ_eq_add_one]
      congr 4; omega


lemma passState_zero {T : Playlist} (hT : TableInvariant T) {id : Nat} {a : Animation}
    (ms : Nat) (ha : T.animation[id]? = some a) :
    passState T id a ms 0 = { animation_id := id, repeat_ := 0, frame := 0, last_ms := ms } := by
  obtain ⟨h1, h2, -⟩ := hT.2.2 a (List.getElem?_mem ha)
  have : 0 < a.frames * a.repeat_ := Nat.mul_pos h1 h2
  simp [passState, this]

/-- C5: on every playlist satisfying the table invariant and for every animation
`id` of it, the `frames * repeat` advance steps that follow the state
`(id, frame 0, repeat 0)` are all defined; step `k` (from 0) writes
`ANIMATION_FRAME[start + k mod frames]`, that is, pass `r` writes the frames
`start .. start + frames - 1` in order, once each; after `j < frames * repeat`
steps the state is `(id, frame j mod frames, repeat j / frames)`; after the last
step it is `((id + 1) mod NUM_ANIMATIONS, frame 0, repeat 0)`. -/
theorem playManyOn_plays_animation_repeat_times (T : Playlist) (id : Nat) (a : Animation)
    (ms : Nat) (hT : TableInvariant T) (hid : id < T.NUM_ANIMATIONS)
    (ha : T.animation[id]? = some a) :
    (∃ outs,
      playManyOn T (a.frames * a.repeat_)
          { animation_id := id, repeat_ := 0, frame := 0, last_ms := ms } =
        some ({ animation_id := (id + 1) % T.NUM_ANIMATIONS, repeat_ := 0, frame := 0,
                last_ms := ms }, outs) ∧
      outs.length = a.frames * a.repeat_ ∧
      (∀ k, k < a.frames * a.repeat_ →
        ∃ frame, T.ANIMATION_FRAME[a.start + k % a.frames]? = some frame ∧
          outs[k]? = some (ledWrite frame)) ∧
      (∀ r i, r < a.repeat_ → i < a.frames →
        ∃ frame, T.ANIMATION_FRAME[a.start + i]? = some frame ∧
          outs[r * a.frames + i]? = some (ledWrite frame))) ∧
    (∀ j, j < a.frames * a.repeat_ →
      ∃ outs,
        playManyOn T j { animation_id := id, repeat_ := 0, frame := 0, last_ms := ms } =
          some ({ animation_id := id, repeat_ := j / a.frames, frame := j % a.frames,
                  last_ms := ms }, outs)) := by
  obtain ⟨h1, h2, h3, -⟩ := hT.2.2 a (List.getElem?_mem ha)
  have h0 := passState_zero hT ms ha
  have hkey : ∀ k, k < a.frames * a.repeat_ →
      ∃ frame, T.ANIMATION_FRAME[a.start + k % a.frames]? = some frame ∧
        ((List.range (a.frames * a.repeat_)).map fun i =>
          ledWrite (T.ANIMATION_FRAME.getD (a.start + (0 + i) % a.frames) 0))[k]? =
            some (ledWrite frame) := by
    intro k hk
    have hm : k % a.frames < a.frames := Nat.mod_lt k h1
    have hlt : a.start + k % a.frames < T.ANIMATION_FRAME.length := by omega
    refine ⟨T.ANIMATION_FRAME[a.start + k % a.frames], List.getElem?_eq_getElem hlt, ?_⟩
    rw [List.getElem?_map, List.getElem?_range hk]
    simp [List.getD_eq_getElem?_getD, List.getElem?_eq_getElem hlt]
  constructor
  · have h := playManyOn_passState hT ms hid ha (a.frames * a.repeat_) 0 (by omega)
    rw [h0] at h
    refine ⟨_, ?_, ?_, hkey, ?_⟩
    · rw [h]
      simp [passState]
    · simp
    · intro r i hr hi
      have hlt : r * a.frames + i < a.frames * a.repeat_ := by
        calc r * a.frames + i < r * a.frames + a.frames := by omega
          _ = (r + 1) * a.frames := by ring
          _ ≤ a.repeat_ * a.frames := Nat.mul_le_mul_right _ hr
          _ = a.frames * a.repeat_ := Nat.mul_comm _ _
      obtain ⟨frame, hfr, hout⟩ := hkey _ hlt
      rw [Nat.mul_add_mod_of_lt hi] at hfr
      exact ⟨frame, hfr, hout⟩
  · intro j hj
    have h := playManyOn_passState hT ms hid ha j 0 (by omega)
    rw [h0] at h
    refine ⟨(List.range j).map fun i =>
      ledWrite (T.ANIMATION_FRAME.getD (a.start + (0 + i) % a.frames) 0), ?_⟩
    rw [h]
    simp [passState, hj]

/-- Instance on animation #4 of the program (2 frames, 10 repeats): 20 steps lead to
the start of animation #5. -/
theorem playManyOn_plays_animation_repeat_times_witness :
    TableInvariant compiled ∧ 4 < compiled.NUM_ANIMATIONS ∧
      compiled.animation[4]? = some ⟨38, 2, 120, 10⟩ ∧
      ∃ outs, playManyOn compiled 20 ⟨4, 0, 0, 7⟩ = some (⟨5, 0, 0, 7⟩, outs) ∧
        outs.length = 20 :=
  ⟨by decide, by decide, by decide,
    (playManyOn_plays_animation_repeat_times compiled 4 ⟨38, 2, 120, 10⟩ 7
      (by decide) (by decide) (by decide)).1.imp fun _ h => ⟨h.1, h.2.1⟩⟩


/-! ## Reachable states -/

lemma setup_inBounds (t0 : Nat) : InBounds compiled (setup t0).1 :=
  ⟨(show 0 < 8 by decide), ⟨0, 14, 40, 4⟩, rfl, (show 0 < 14 by decide),
    (show 0 < 4 by decide)⟩

/-- Any number of `loop()` iterations from a state inside the tables is defined
and ends inside the tables. -/
lemma loopManyOn_inBounds {T : Playlist} (hT : TableInvariant T) (clocks : List Nat)
    (p : Player) (hp : InBounds T p) :
    ∃ q outs, loopManyOn T clocks p = some (q, outs) ∧ InBounds T q := by
  induction clocks generalizing p with
  | nil => exact ⟨p, [], rfl, hp⟩
  | cons now rest ih =>
    obtain ⟨hid, a, ha, hf, hr⟩ := hp
    obtain ⟨frame, -, -, hloop⟩ := loopOn_of_inBounds hT hid ha hf now
    have hnext : ∃ p' out, loopOn T p now = some (p', out) ∧ InBounds T p' := by
      by_cases c : elapsed now p.last_ms > a.frame_delay_ms
      · rw [if_pos c] at hloop
        exact ⟨_, _, hloop, advanceRule_inBounds hT hid ha hf hr⟩
      · rw [if_neg c] at hloop
        exact ⟨_, _, hloop, hid, a, ha, hf, hr⟩
    obtain ⟨p', out, hstep, hp'⟩ := hnext
    obtain ⟨q, outs, hrest, hq⟩ := ih p' hp'
    exact ⟨q, out :: outs, by simp only [loopManyOn, hstep, hrest], hq⟩

lemma run_inBounds (t0 : Nat) (clocks : List Nat) :
    ∃ p, run t0 clocks = some p ∧ InBounds compiled p := by
  obtain ⟨q, outs, h, hq⟩ :=
    loopManyOn_inBounds compiled_tableInvariant clocks (setup t0).1 (setup_inBounds t0)
  exact ⟨q, by simp [run, h], hq⟩

/-- C6: whatever the clock reads in `setup()` and in any number of `loop()`
iterations, the run is defined and ends in a state with
`animation_id < NUM_ANIMATIONS`, `frame < animation[animation_id].frames` and
`repeat < animation[animation_id].repeat`. -/
theorem run_state_within_bounds (t0 : Nat) (clocks : List Nat) :
    ∃ p a, run t0 clocks = some p ∧ p.animation_id < NUM_ANIMATIONS ∧
      animation[p.animation_id]? = some a ∧ p.frame < a.frames ∧ p.repeat_ < a.repeat_ := by
  obtain ⟨p, hrun, hid, a, ha, hf, hr⟩ := run_inBounds t0 clocks
  exact ⟨p, a, hrun, hid, ha, hf, hr⟩

/-- C7: in every state the run can reach, `animation_id` is below 8 (the length
of `animation`) and `animation[animation_id].start + frame` is below 89 (the
length of `ANIMATION_FRAME`), so that the next `playAnimation()` and the next
`loop()`, for any clock value, read inside both tables. -/
theorem run_reads_inside_tables (t0 : Nat) (clocks : List Nat) :
    ∃ p a, run t0 clocks = some p ∧
      animation.length = 8 ∧ ANIMATION_FRAME.length = 89 ∧
      p.animation_id < 8 ∧ animation[p.animation_id]? = some a ∧
      a.start + p.frame < 89 ∧
      (playAnimation p).isSome ∧ ∀ now, (loop p now).isSome := by
  obtain ⟨p, hrun, hid, a, ha, hf, hr⟩ := run_inBounds t0 clocks
  obtain ⟨-, -, h3, -⟩ := compiled_tableInvariant.2.2 a (List.getElem?_mem ha)
  have hlen : compiled.ANIMATION_FRAME.length = 89 := by decide
  refine ⟨p, a, hrun, by decide, by decide, hid, ha, by omega, ?_, ?_⟩
  · obtain ⟨frame, -, hplay⟩ := playAnimationOn_of_inBounds compiled_tableInvariant hid ha hf
    simp [playAnimation, hplay]
  · intro now
    obtain ⟨frame, -, -, hloop⟩ := loopOn_of_inBounds compiled_tableInvariant hid ha hf now
    unfold loop
    rw [hloop]
    split_ifs <;> rfl

/-- C8: each of the 8 records of `animation` has `frames ≥ 1`, `repeat ≥ 1` and
`start + frames` at most the number of entries of `ANIMATION_FRAME`. -/
theorem animation_table_invariant :
    animation.length = 8 ∧
      ∀ a ∈ animation, 1 ≤ a.frames ∧ 1 ≤ a.repeat_ ∧
        a.start + a.frames ≤ ANIMATION_FRAME.length := by
  decide

/-- Instance on the record of animation #7, whose range ends at the end of the table. -/
theorem animation_table_invariant_witness :
    (⟨52, 37, 40, 1⟩ : Animation) ∈ animation ∧ 52 + 37 ≤ ANIMATION_FRAME.length :=
  ⟨by decide, (animation_table_invariant.2 ⟨52, 37, 40, 1⟩ (by decide)).2.2⟩

/-- C9: from the last frame of the last repeat of the last animation
(`animation_id = NUM_ANIMATIONS - 1`), `playAnimation()` leaves the player at
animation 0, frame 0, repeat 0; and from every in-bounds state `playAnimation()`
is defined and leaves an in-bounds state, so the playback never stops. -/
theorem playAnimation_wraps_and_is_total :
    (∀ p a, p.animation_id = NUM_ANIMATIONS - 1 → animation[p.animation_id]? = some a →
      p.frame + 1 = a.frames → p.repeat_ + 1 = a.repeat_ →
      ∃ out, playAnimation p =
        some ({ animation_id := 0, repeat_ := 0, frame := 0, last_ms := p.last_ms }, out)) ∧
    (∀ p, InBounds compiled p →
      ∃ q out, playAnimation p = some (q, out) ∧ InBounds compiled q) := by
  constructor
  · intro p a hid ha hf hr
    have hid' : p.animation_id < compiled.NUM_ANIMATIONS := by
      rw [hid]; decide
    obtain ⟨frame, -, hplay⟩ :=
      playAnimationOn_of_inBounds compiled_tableInvariant hid' ha (by omega)
    refine ⟨ledWrite frame, ?_⟩
    unfold playAnimation
    rw [hplay]
    have e1 : ¬ p.frame + 1 < a.frames := by omega
    have e2 : ¬ p.repeat_ + 1 < a.repeat_ := by omega
    simp [advanceRule, e1, e2, hid, compiled, NUM_ANIMATIONS]
  · intro p hp
    obtain ⟨hid, a, ha, hf, hr⟩ := hp
    obtain ⟨frame, -, hplay⟩ := playAnimationOn_of_inBounds compiled_tableInvariant hid ha hf
    exact ⟨_, _, hplay, advanceRule_inBounds compiled_tableInvariant hid ha hf hr⟩

/-- Instance at the state (animation 7, frame 36, repeat 0). -/
theorem playAnimation_wraps_and_is_total_witness :
    ∃ out, playAnimation ⟨7, 0, 36, 12⟩ = some (⟨0, 0, 0, 12⟩, out) :=
  playAnimation_wraps_and_is_total.1 ⟨7, 0, 36, 12⟩ ⟨52, 37, 40, 1⟩
    (by decide) (by decide) (by decide) (by decide)


/-! ## Progress of the cursor -/

/-- C10 as stated fails: on the playlist of one animation made of one frame
shown once, which satisfies the table invariant, the advance step from the
in-bounds state (animation 0, frame 0, repeat 0) leaves that same state. -/
theorem playAnimationOn_singleFramePlaylist_keeps_tuple :
    TableInvariant singleFramePlaylist ∧ InBounds singleFramePlaylist ⟨0, 0, 0, 0⟩ ∧
      playAnimationOn singleFramePlaylist ⟨0, 0, 0, 0⟩ =
        some (⟨0, 0, 0, 0⟩, ledWrite 0b00000001) := by
  decide

/-- C10, amended: on every playlist satisfying the table invariant and from
every in-bounds state, the advance step is defined and leaves the tuple
`(animation_id, frame, repeat)` unchanged exactly when the playlist has a single
animation and that animation has one frame and one repeat; in every other case
the tuple after the step differs from the tuple before it. -/
theorem playAnimationOn_changes_tuple (T : Playlist) (p : Player) (a : Animation)
    (hT : TableInvariant T) (hb : InBounds T p)
    (ha : T.animation[p.animation_id]? = some a) :
    ∃ q out, playAnimationOn T p = some (q, out) ∧
      ((q.animation_id, q.frame, q.repeat_) = (p.animation_id, p.frame, p.repeat_) ↔
        T.NUM_ANIMATIONS = 1 ∧ a.frames = 1 ∧ a.repeat_ = 1) := by
  obtain ⟨hid, a', ha', hf, hr⟩ := hb
  have haa : a' = a := Option.some.inj (ha'.symm.trans ha)
  subst haa
  obtain ⟨frame, -, hplay⟩ := playAnimationOn_of_inBounds hT hid ha hf
  refine ⟨_, _, hplay, ?_⟩
  unfold advanceRule
  split_ifs with c1 c2
  · simp only [Prod.mk.injEq]
    constructor
    · intro h; omega
    · intro h; omega
  · simp only [Prod.mk.injEq]
    constructor
    · intro h; omega
    · intro h; omega
  · simp only [Prod.mk.injEq]
    constructor
    · rintro ⟨e1, e2, e3⟩
      have hN : T.NUM_ANIMATIONS = 1 := by
        by_cases c : p.animation_id + 1 < T.NUM_ANIMATIONS
        · rw [Nat.mod_eq_of_lt c] at e1; omega
        · have : p.animation_id + 1 = T.NUM_ANIMATIONS := by omega
          rw [this, Nat.mod_self] at e1
          omega
      exact ⟨hN, by omega, by omega⟩
    · rintro ⟨e1, e2, e3⟩
      have hid0 : p.animation_id = 0 := by omega
      rw [e1, hid0]
      exact ⟨rfl, by omega, by omega⟩

/-- Instance on the program: from (animation 7, frame 36, repeat 0) the
tuple changes. -/
theorem playAnimationOn_changes_tuple_witness :
    TableInvariant compiled ∧ InBounds compiled ⟨7, 0, 36, 0⟩ ∧
      compiled.animation[7]? = some ⟨52, 37, 40, 1⟩ ∧
      ∃ q out, playAnimationOn compiled ⟨7, 0, 36, 0⟩ = some (q, out) ∧
        (q.animation_id, q.frame, q.repeat_) ≠ (7, 36, 0) := by
  refine ⟨by decide, by decide, by decide, ?_⟩
  obtain ⟨q, out, h, hiff⟩ :=
    playAnimationOn_changes_tuple compiled ⟨7, 0, 36, 0⟩ ⟨52, 37, 40, 1⟩
      (by decide) (by decide) (by decide)
  exact ⟨q, out, h, fun e => absurd (hiff.1 e).1 (by decide)⟩

end AnimationsV2

/-! ## The display, the start of an animation and the setup -/

namespace AnimationsV2

lemma and_one_shiftLeft (p i : Nat) : p &&& (1 <<< i) = p / 2 ^ i % 2 * 2 ^ i := by
  rw [Nat.one_shiftLeft, Nat.and_two_pow, Nat.toNat_testBit]

lemma shiftRight_and_one (n i : Nat) : (n >>> i) &&& 1 = n / 2 ^ i % 2 := by
  rw [Nat.and_one_is_mod, Nat.shiftRight_eq_div_pow]

lemma LED_PIN_getD (i : Nat) (hi : i < 8) : LED_PIN[i]? = some (LED_PIN.getD i 0) := by
  interval_cases i <;> rfl

lemma ledWrite_getElem? (p i : Nat) (hi : i < 8) :
    (ledWrite p)[i]? =
      some (PinEvent.digitalWrite (LED_PIN.getD i 0) ((p &&& (1 <<< i)) % 256)) := by
  unfold ledWrite
  rw [List.getElem?_map, List.getElem?_range (show i < NUM_LEDS from hi)]
  rfl

/-- The value `ledWrite` passes for line `i` is nonzero exactly when bit `i` of
the pattern is 1. -/
lemma ledWrite_val_ne_zero (p i : Nat) (hi : i < 8) :
    (p &&& (1 <<< i)) % 256 ≠ 0 ↔ p / 2 ^ i % 2 = 1 := by
  rw [and_one_shiftLeft]
  have hb : p / 2 ^ i % 2 < 2 := Nat.mod_lt _ (by decide)
  interval_cases i <;> omega

/-- C11: for every pattern `p`, `ledWrite(p)` makes exactly 8 calls of
`digitalWrite`; the call at position `i` (from 0, in program order) is for pin
`LED_PIN[i]`, and the value it passes is nonzero (`HIGH`) if and only if bit `i`
of `p` is 1. -/
theorem ledWrite_writes_each_bit (p i : Nat) (hi : i < 8) :
    (ledWrite p).length = 8 ∧
      ∃ pin val, LED_PIN[i]? = some pin ∧
        (ledWrite p)[i]? = some (PinEvent.digitalWrite pin val) ∧
        (val ≠ 0 ↔ p / 2 ^ i % 2 = 1) :=
  ⟨ledWrite_length p, _, _, LED_PIN_getD i hi, ledWrite_getElem? p i hi,
    ledWrite_val_ne_zero p i hi⟩

/-- Instance on the pattern `0b10000001`: line 7 (pin 12) is driven high. -/
theorem ledWrite_writes_each_bit_witness :
    (7 < 8) ∧ (ledWrite 0b10000001).length = 8 ∧
      ∃ pin val, LED_PIN[7]? = some pin ∧
        (ledWrite 0b10000001)[7]? = some (PinEvent.digitalWrite pin val) ∧
        (val ≠ 0 ↔ 0b10000001 / 2 ^ 7 % 2 = 1) :=
  ⟨by decide, ledWrite_writes_each_bit 0b10000001 7 (by decide)⟩

/-- C12: for every index and every prior player state, `startAnimation(index)`
leaves `animation_id = index`, `frame = 0`, `repeat = 0` and `last_ms` as it
was. The function returns the new player only: its body is three assignments
and makes no call that could reach the pins. -/
theorem startAnimation_resets_cursor (index : Nat) (p : Player) :
    (startAnimation index p).animation_id = index ∧
      (startAnimation index p).frame = 0 ∧
      (startAnimation index p).repeat_ = 0 ∧
      (startAnimation index p).last_ms = p.last_ms ∧
      startAnimation index p =
        { animation_id := index, repeat_ := 0, frame := 0, last_ms := p.last_ms } :=
  ⟨rfl, rfl, rfl, rfl, rfl⟩

/-- C13: after `setup()` run with the clock reading `t0`, the player is at
animation 0, frame 0, repeat 0 with `last_ms = t0`; the only events are the
eight `pinMode` calls of `initLeds()`, so that no frame has been written. -/
theorem setup_state_and_events (t0 : Nat) :
    (setup t0).1 = { animation_id := 0, repeat_ := 0, frame := 0, last_ms := t0 } ∧
      (setup t0).2 =
        [PinEvent.pinMode 5 OUTPUT, PinEvent.pinMode 6 OUTPUT, PinEvent.pinMode 7 OUTPUT,
         PinEvent.pinMode 8 OUTPUT, PinEvent.pinMode 9 OUTPUT, PinEvent.pinMode 10 OUTPUT,
         PinEvent.pinMode 11 OUTPUT, PinEvent.pinMode 12 OUTPUT] ∧
      (setup t0).2.filter PinEvent.isDigitalWrite = [] :=
  ⟨rfl, rfl, rfl⟩

/-! ## The clock -/

lemma elapsed_add_mod (last_ms d : Nat) (hl : last_ms < 4294967296) (hd : d < 4294967296) :
    elapsed ((last_ms + d) % 4294967296) last_ms = d := by
  unfold elapsed
  omega

/-- C14: for every in-bounds player state with a 32-bit `last_ms` and every
duration `d < 2^32`, when the clock reads `(last_ms + d) mod 2^32` the elapsed
value `loop()` computes is `d`, and `loop()` writes a frame if and only if
`d > frame_delay_ms`, whether or not the clock rolled over in between. -/
theorem loop_elapsed_across_rollover (p : Player) (a : Animation) (d : Nat)
    (hb : InBounds compiled p) (ha : animation[p.animation_id]? = some a)
    (hl : p.last_ms < 4294967296) (hd : d < 4294967296) :
    elapsed ((p.last_ms + d) % 4294967296) p.last_ms = d ∧
      ∃ q out, loop p ((p.last_ms + d) % 4294967296) = some (q, out) ∧
        (out ≠ [] ↔ a.frame_delay_ms < d) := by
  have hel := elapsed_add_mod p.last_ms d hl hd
  refine ⟨hel, ?_⟩
  obtain ⟨hid, a', ha', hf, -⟩ := hb
  have haa : a' = a := Option.some.inj (ha'.symm.trans ha)
  subst haa
  obtain ⟨frame, -, -, hloop⟩ :=
    loopOn_of_inBounds compiled_tableInvariant hid ha hf ((p.last_ms + d) % 4294967296)
  rw [hel] at hloop
  by_cases c : d > a'.frame_delay_ms
  · rw [if_pos c] at hloop
    exact ⟨_, _, hloop, fun _ => c, fun _ => ledWrite_ne_nil frame⟩
  · rw [if_neg c] at hloop
    exact ⟨_, _, hloop, fun h => absurd rfl h, fun h => absurd h c⟩

/-- Instance across the rollover: with `last_ms = 2^32 - 10` and a delay of 40,
the clock value 31 (41 ms later) renders and the clock value 30 (40 ms later)
does not. -/
theorem loop_elapsed_across_rollover_witness :
    InBounds compiled ⟨0, 0, 0, 4294967286⟩ ∧ animation[0]? = some ⟨0, 14, 40, 4⟩ ∧
      (4294967286 + 41) % 4294967296 = 31 ∧ (4294967286 + 40) % 4294967296 = 30 ∧
      elapsed 31 4294967286 = 41 ∧ elapsed 30 4294967286 = 40 ∧
      (∃ q out, loop ⟨0, 0, 0, 4294967286⟩ 31 = some (q, out) ∧ out ≠ []) ∧
      (∃ q, loop ⟨0, 0, 0, 4294967286⟩ 30 = some (q, [])) := by
  have h41 := loop_elapsed_across_rollover ⟨0, 0, 0, 4294967286⟩ ⟨0, 14, 40, 4⟩ 41
    (by decide) (by decide) (by decide) (by decide)
  have h40 := loop_elapsed_across_rollover ⟨0, 0, 0, 4294967286⟩ ⟨0, 14, 40, 4⟩ 40
    (by decide) (by decide) (by decide) (by decide)
  refine ⟨by decide, by decide, by decide, by decide, h41.1, h40.1, ?_, ?_⟩
  · obtain ⟨q, out, h, hiff⟩ := h41.2
    exact ⟨q, out, h, hiff.2 (by decide)⟩
  · obtain ⟨q, out, h, hiff⟩ := h40.2
    have hout : out = [] := by
      by_contra hne
      exact absurd (hiff.1 hne) (by decide)
    subst hout
    exact ⟨q, h⟩

/-! ## Scenarios -/

/-- C15: on the playlist of one animation (start 0, 3 frames, delay 40, repeat 2)
over the frames `0b001, 0b010, 0b100`, from frame 0, repeat 0, `last_ms` 0:
`loop()` at 41 writes `0b001` and leaves frame 1; at 82 it writes `0b010` and
leaves frame 2; at 123 it writes `0b100` and leaves frame 0, repeat 1; at 164 it
writes `0b001`; the two renders that complete the second pass (at 205 and 246)
leave animation 0, frame 0, repeat 0. -/
theorem scenario1_ticks :
    loopOn scenario1 ⟨0, 0, 0, 0⟩ 41 =
        some ({ animation_id := 0, repeat_ := 0, frame := 1, last_ms := 41 },
          ledWrite 0b001) ∧
      loopOn scenario1 ⟨0, 0, 1, 41⟩ 82 =
        some ({ animation_id := 0, repeat_ := 0, frame := 2, last_ms := 82 },
          ledWrite 0b010) ∧
      loopOn scenario1 ⟨0, 0, 2, 82⟩ 123 =
        some ({ animation_id := 0, repeat_ := 1, frame := 0, last_ms := 123 },
          ledWrite 0b100) ∧
      loopOn scenario1 ⟨0, 1, 0, 123⟩ 164 =
        some ({ animation_id := 0, repeat_ := 1, frame := 1, last_ms := 164 },
          ledWrite 0b001) ∧
      loopOn scenario1 ⟨0, 1, 1, 164⟩ 205 =
        some ({ animation_id := 0, repeat_ := 1, frame := 2, last_ms := 205 },
          ledWrite 0b010) ∧
      loopOn scenario1 ⟨0, 1, 2, 205⟩ 246 =
        some ({ animation_id := 0, repeat_ := 0, frame := 0, last_ms := 246 },
          ledWrite 0b100) ∧
      loopManyOn scenario1 [41, 82, 123, 164, 205, 246] ⟨0, 0, 0, 0⟩ =
        some ({ animation_id := 0, repeat_ := 0, frame := 0, last_ms := 246 },
          [ledWrite 0b001, ledWrite 0b010, ledWrite 0b100,
           ledWrite 0b001, ledWrite 0b010, ledWrite 0b100]) := by
  decide

/-- C16: on every playlist of two animations satisfying the table invariant,
the first with 2 frames and repeat 1, the second with 1 frame and repeat 1: from
(animation 0, frame 0, repeat 0) the first advance step writes the first frame
and leaves frame 1; the second writes the second frame and leaves (animation 1,
frame 0, repeat 0) at once, with no state of a second pass in between; the third
writes the only frame of the second animation and leaves (animation 0, frame 0,
repeat 0). -/
theorem two_animations_without_repeat (T : Playlist) (a0 a1 : Animation) (ms : Nat)
    (hT : TableInvariant T) (hN : T.NUM_ANIMATIONS = 2) (hl : T.animation = [a0, a1])
    (h0 : a0.frames = 2 ∧ a0.repeat_ = 1) (h1 : a1.frames = 1 ∧ a1.repeat_ = 1) :
    ∃ f0 f1 f2, T.ANIMATION_FRAME[a0.start]? = some f0 ∧
      T.ANIMATION_FRAME[a0.start + 1]? = some f1 ∧
      T.ANIMATION_FRAME[a1.start]? = some f2 ∧
      playAnimationOn T { animation_id := 0, repeat_ := 0, frame := 0, last_ms := ms } =
        some ({ animation_id := 0, repeat_ := 0, frame := 1, last_ms := ms }, ledWrite f0) ∧
      playAnimationOn T { animation_id := 0, repeat_ := 0, frame := 1, last_ms := ms } =
        some ({ animation_id := 1, repeat_ := 0, frame := 0, last_ms := ms }, ledWrite f1) ∧
      playAnimationOn T { animation_id := 1, repeat_ := 0, frame := 0, last_ms := ms } =
        some ({ animation_id := 0, repeat_ := 0, frame := 0, last_ms := ms }, ledWrite f2) ∧
      playManyOn T 3 { animation_id := 0, repeat_ := 0, frame := 0, last_ms := ms } =
        some ({ animation_id := 0, repeat_ := 0, frame := 0, last_ms := ms },
          [ledWrite f0, ledWrite f1, ledWrite f2]) := by
  have ha0 : T.animation[0]? = some a0 := by rw [hl]; rfl
  have ha1 : T.animation[1]? = some a1 := by rw [hl]; rfl
  obtain ⟨f0, hf0, hp0⟩ :=
    playAnimationOn_of_inBounds (p := ⟨0, 0, 0, ms⟩) hT (by rw [hN]; exact Nat.zero_lt_two)
      ha0 (by rw [h0.1]; exact Nat.zero_lt_two)
  obtain ⟨f1, hf1, hp1⟩ :=
    playAnimationOn_of_inBounds (p := ⟨0, 0, 1, ms⟩) hT (by rw [hN]; exact Nat.zero_lt_two)
      ha0 (by rw [h0.1]; exact Nat.one_lt_two)
  obtain ⟨f2, hf2, hp2⟩ :=
    playAnimationOn_of_inBounds (p := ⟨1, 0, 0, ms⟩) hT (by rw [hN]; exact Nat.one_lt_two)
      ha1 (by rw [h1.1]; exact Nat.zero_lt_one)
  have e0 : advanceRule a0 T.NUM_ANIMATIONS ⟨0, 0, 0, ms⟩ = ⟨0, 0, 1, ms⟩ := by
    simp [advanceRule, h0.1]
  have e1 : advanceRule a0 T.NUM_ANIMATIONS ⟨0, 0, 1, ms⟩ = ⟨1, 0, 0, ms⟩ := by
    simp [advanceRule, h0.1, h0.2, hN]
  have e2 : advanceRule a1 T.NUM_ANIMATIONS ⟨1, 0, 0, ms⟩ = ⟨0, 0, 0, ms⟩ := by
    simp [advanceRule, h1.1, h1.2, hN]
  rw [e0] at hp0
  rw [e1] at hp1
  rw [e2] at hp2
  refine ⟨f0, f1, f2, by simpa using hf0, hf1, by simpa using hf2, hp0, hp1, hp2, ?_⟩
  simp only [playManyOn, hp0, hp1, hp2]

/-- Instance on the playlist `scenario2`. -/
theorem two_animations_without_repeat_witness :
    TableInvariant scenario2 ∧ scenario2.NUM_ANIMATIONS = 2 ∧
      scenario2.animation = [⟨0, 2, 40, 1⟩, ⟨2, 1, 40, 1⟩] ∧
      ∃ f0 f1 f2, playManyOn scenario2 3 ⟨0, 0, 0, 0⟩ =
        some (⟨0, 0, 0, 0⟩, [ledWrite f0, ledWrite f1, ledWrite f2]) := by
  refine ⟨by decide, rfl, rfl, ?_⟩
  obtain ⟨f0, f1, f2, -, -, -, -, -, -, h⟩ :=
    two_animations_without_repeat scenario2 ⟨0, 2, 40, 1⟩ ⟨2, 1, 40, 1⟩ 0
      (by decide) rfl rfl ⟨rfl, rfl⟩ ⟨rfl, rfl⟩
  exact ⟨f0, f1, f2, h⟩

/-! ## Display time of a frame -/

set_option maxRecDepth 1000000 in
/-- C17 fails on the program: with `setup()` at 0 and one `loop()` every 121 ms,
the 222nd `loop()` (at 26862) writes the last frame `0b10101010` of the last
repeat of animation #4, whose `frame_delay_ms` is 120, and moves to
animation #5; a `loop()` 81 ms later (at 26943) already writes the first frame
of animation #5, because the delay it compares with is the 80 ms of animation #5. -/
theorem last_frame_of_animation4_shown_81_ms :
    run 0 (everyMs 121 221) =
        some { animation_id := 4, repeat_ := 9, frame := 1, last_ms := 26741 } ∧
      animation[4]? = some ⟨38, 2, 120, 10⟩ ∧ animation[5]? = some ⟨40, 4, 80, 8⟩ ∧
      loop { animation_id := 4, repeat_ := 9, frame := 1, last_ms := 26741 } 26862 =
        some ({ animation_id := 5, repeat_ := 0, frame := 0, last_ms := 26862 },
          ledWrite 0b10101010) ∧
      loop { animation_id := 5, repeat_ := 0, frame := 0, last_ms := 26862 } 26943 =
        some ({ animation_id := 5, repeat_ := 0, frame := 1, last_ms := 26943 },
          ledWrite 0b00010001) ∧
      26943 - 26862 = 81 ∧ 81 < 120 := by
  decide

end AnimationsV2

/-! ## The first version of the sequencer -/

namespace AnimationsV1

lemma frames_eq_v2 : ANIMATION_FRAME = AnimationsV2.ANIMATION_FRAME := by decide

/-- The four parallel tables hold, index by index, the fields of the records of
the second version. -/
lemma tables_agree (id : Nat) (hid : id < 8) :
    ∃ a, AnimationsV2.animation[id]? = some a ∧
      ANIMATION_START[id]? = some a.start ∧ ANIMATION_FRAMES[id]? = some a.frames ∧
      ANIMATION_DELAY_MS[id]? = some a.frame_delay_ms ∧
      ANIMATION_REPEAT[id]? = some a.repeat_ := by
  interval_cases id <;> exact ⟨_, rfl, rfl, rfl, rfl, rfl⟩

/-- For an index inside the tables, `startAnimation` is defined, loads the
cached values of that index and resets the cursor. -/
lemma startAnimation_cached (id : Nat) (hid : id < 8) (s : State) :
    ∃ s', startAnimation id s = some s' ∧ Cached s' ∧
      toPlayer s' = ⟨id, 0, 0, s.player_last_ms⟩ := by
  obtain ⟨a, ha, ts, tf, td, tr⟩ := tables_agree id hid
  obtain ⟨h1, h2, -⟩ :=
    AnimationsV2.compiled_tableInvariant.2.2 a (List.getElem?_mem ha)
  refine ⟨{ s with
      animation_id := id, animation_start := a.start, animation_frames := a.frames,
      animation_delay_ms := a.frame_delay_ms, animation_repeat := a.repeat_,
      player_frame := 0, player_repeat := 0 }, ?_, ?_, rfl⟩
  · unfold startAnimation
    simp only [ts, tf, td, tr]
  · exact ⟨hid, ts, tf, td, tr, h1, h2⟩

/-- One `playAnimation()` of each version from corresponding states: same
events, corresponding states again. -/
lemma playAnimation_sim (s : State) (hc : Cached s) :
    ∃ s' a frame, AnimationsV2.animation[s.animation_id]? = some a ∧
      s.animation_delay_ms = a.frame_delay_ms ∧
      playAnimation s = some (s', AnimationsV2.ledWrite frame) ∧
      AnimationsV2.playAnimation (toPlayer s) =
        some (toPlayer s', AnimationsV2.ledWrite frame) ∧
      s'.player_last_ms = s.player_last_ms ∧ Cached s' := by
  obtain ⟨hid, hs, hf, hd, hr, hfr, hrp⟩ := hc
  obtain ⟨a, ha, ts, tf, td, tr⟩ := tables_agree s.animation_id hid
  have es : s.animation_start = a.start := Option.some.inj (hs.symm.trans ts)
  have ef : s.animation_frames = a.frames := Option.some.inj (hf.symm.trans tf)
  have ed : s.animation_delay_ms = a.frame_delay_ms := Option.some.inj (hd.symm.trans td)
  have er : s.animation_repeat = a.repeat_ := Option.some.inj (hr.symm.trans tr)
  obtain ⟨-, -, -, -, b5, -, b7⟩ :=
    AnimationsV2.compiled_tableInvariant.2.2 a (List.getElem?_mem ha)
  obtain ⟨frame, hframe, hplay⟩ :=
    AnimationsV2.playAnimationOn_of_inBounds (p := toPlayer s)
      AnimationsV2.compiled_tableInvariant hid ha (by rw [← ef]; exact hfr)
  have hframe1 : ANIMATION_FRAME[s.animation_start + s.player_frame]? = some frame := by
    rw [frames_eq_v2, es]; exact hframe
  have hplay2 : AnimationsV2.playAnimation (toPlayer s) =
      some (AnimationsV2.advanceRule a 8 (toPlayer s), AnimationsV2.ledWrite frame) := hplay
  by_cases c1 : s.player_frame + 1 < s.animation_frames
  · refine ⟨{ s with player_frame := s.player_frame + 1 }, a, frame, ha, ed, ?_, ?_, rfl,
      hid, hs, hf, hd, hr, c1, hrp⟩
    · unfold playAnimation
      simp only [hframe1, if_pos c1]
      rw [Nat.mod_eq_of_lt (by omega)]
      rfl
    · rw [hplay2]
      have c1' : (toPlayer s).frame + 1 < a.frames := by rw [← ef]; exact c1
      simp only [AnimationsV2.advanceRule, if_pos c1']
      rfl
  · by_cases c2 : s.player_repeat + 1 < s.animation_repeat
    · refine ⟨{ s with player_frame := 0, player_repeat := s.player_repeat + 1 }, a, frame,
        ha, ed, ?_, ?_, rfl, hid, hs, hf, hd, hr, (show 0 < s.animation_frames by omega), c2⟩
      · unfold playAnimation
        simp only [hframe1, if_neg c1, if_pos c2]
        rw [Nat.mod_eq_of_lt (by omega)]
        rfl
      · rw [hplay2]
        have c1' : ¬ (toPlayer s).frame + 1 < a.frames := by rw [← ef]; exact c1
        have c2' : (toPlayer s).repeat_ + 1 < a.repeat_ := by rw [← er]; exact c2
        simp only [AnimationsV2.advanceRule, if_neg c1', if_pos c2']
        rfl
    · have hlt : (s.animation_id + 1) % 256 % NUM_ANIMATIONS < 8 :=
        Nat.mod_lt _ (by decide)
      obtain ⟨s', hstart, hc', hp'⟩ :=
        startAnimation_cached _ hlt
          { s with animation_id := (s.animation_id + 1) % 256 % NUM_ANIMATIONS }
      refine ⟨s', a, frame, ha, ed, ?_, ?_, ?_, hc'⟩
      · unfold playAnimation
        simp only [hframe1, if_neg c1, if_neg c2, hstart]
        rfl
      · rw [hplay2, hp']
        have c1' : ¬ (toPlayer s).frame + 1 < a.frames := by rw [← ef]; exact c1
        have c2' : ¬ (toPlayer s).repeat_ + 1 < a.repeat_ := by rw [← er]; exact c2
        simp only [AnimationsV2.advanceRule, if_neg c1', if_neg c2']
        have e : (s.animation_id + 1) % 256 % NUM_ANIMATIONS =
            ((toPlayer s).animation_id + 1) % 8 := by
          show (s.animation_id + 1) % 256 % 8 = (s.animation_id + 1) % 8
          omega
        rw [e]
        rfl
      · have := congrArg AnimationsV2.Player.last_ms hp'
        exact this

/-- One `loop()` of each version from corresponding states. -/
lemma loop_sim (s : State) (hc : Cached s) (now : Nat) :
    ∃ s' out, loop s now = some (s', out) ∧
      AnimationsV2.loop (toPlayer s) now = some (toPlayer s', out) ∧ Cached s' := by
  obtain ⟨s', a, frame, ha, ed, hp1, hp2, -, hc'⟩ := playAnimation_sim s hc
  have hp2' : AnimationsV2.playAnimationOn AnimationsV2.compiled (toPlayer s) =
      some (toPlayer s', AnimationsV2.ledWrite frame) := hp2
  have ha' : AnimationsV2.compiled.animation[(toPlayer s).animation_id]? = some a := ha
  by_cases c : elapsed now s.player_last_ms > s.animation_delay_ms
  · refine ⟨{ s' with player_last_ms := now }, AnimationsV2.ledWrite frame, ?_, ?_, ?_⟩
    · unfold loop
      simp only [if_pos c, hp1]
    · have c' : AnimationsV2.elapsed now (toPlayer s).last_ms > a.frame_delay_ms := by
        rw [← ed]; exact c
      unfold AnimationsV2.loop AnimationsV2.loopOn
      simp only [ha', if_pos c', hp2']
      rfl
    · exact hc'
  · refine ⟨s, [], ?_, ?_, hc⟩
    · unfold loop
      simp only [if_neg c]
    · have c' : ¬ AnimationsV2.elapsed now (toPlayer s).last_ms > a.frame_delay_ms := by
        rw [← ed]; exact c
      unfold AnimationsV2.loop AnimationsV2.loopOn
      simp only [ha', if_neg c']

/-- Any number of `loop()` iterations of each version from corresponding states. -/
lemma loopMany_sim (clocks : List Nat) (s : State) (hc : Cached s) :
    ∃ s' outs, loopMany clocks s = some (s', outs) ∧
      AnimationsV2.loopManyOn AnimationsV2.compiled clocks (toPlayer s) =
        some (toPlayer s', outs) ∧ Cached s' := by
  induction clocks generalizing s with
  | nil => exact ⟨s, [], rfl, rfl, hc⟩
  | cons now rest ih =>
    obtain ⟨s1, out, h1, h2, hc1⟩ := loop_sim s hc now
    obtain ⟨s', outs, h3, h4, hc'⟩ := ih s1 hc1
    have h2' : AnimationsV2.loopOn AnimationsV2.compiled (toPlayer s) now =
        some (toPlayer s1, out) := h2
    exact ⟨s', out :: outs, by simp only [loopMany, h1, h3],
      by simp only [AnimationsV2.loopManyOn, h2', h4], hc'⟩

lemma setup_cached (t0 : Nat) :
    ∃ s0, setup t0 = some (s0, AnimationsV2.initLeds) ∧ Cached s0 ∧
      toPlayer s0 = (AnimationsV2.setup t0).1 :=
  ⟨⟨0, 0, 14, 40, 4, 0, 0, t0⟩, rfl,
    ⟨(show 0 < 8 by decide), rfl, rfl, rfl, rfl, (show 0 < 14 by decide),
      (show 0 < 4 by decide)⟩, rfl⟩

/-- C18: for every clock value read by `setup()` and every sequence of clock
values read by `loop()`, the two versions of the sequencer are both defined,
emit the same events in `setup()` and in each `loop()` (the same `ledWrite`
patterns at the same ticks), and end in the same `(animation_id, frame, repeat,
last_ms)`; as this holds for every sequence, it holds after each tick of a run. -/
theorem v1_v2_same_events_and_states (t0 : Nat) (clocks : List Nat) :
    ∃ s0 s ev outs, setup t0 = some (s0, ev) ∧
      AnimationsV2.setup t0 = (toPlayer s0, ev) ∧
      loopMany clocks s0 = some (s, outs) ∧
      run t0 clocks = some (s, outs) ∧
      AnimationsV2.loopManyOn AnimationsV2.compiled clocks (AnimationsV2.setup t0).1 =
        some (toPlayer s, outs) ∧
      AnimationsV2.run t0 clocks = some (toPlayer s) := by
  obtain ⟨s0, hsetup, hc0, hp0⟩ := setup_cached t0
  obtain ⟨s, outs, h1, h2, -⟩ := loopMany_sim clocks s0 hc0
  rw [hp0] at h2
  refine ⟨s0, s, AnimationsV2.initLeds, outs, hsetup, ?_, h1, ?_, h2, ?_⟩
  · exact Prod.ext hp0.symm rfl
  · simp only [run, hsetup, h1]
  · simp only [AnimationsV2.run, h2, Option.map_some']

end AnimationsV1

/-! ## The two ways of reading a bit -/

namespace BinaryCounter

lemma shift_level (n i : Nat) :
    (((n >>> i) &&& 0x1) % 256 != 0) = decide (n / 2 ^ i % 2 = 1) := by
  rw [AnimationsV2.shiftRight_and_one]
  have hb : n / 2 ^ i % 2 = 0 ∨ n / 2 ^ i % 2 = 1 := by omega
  rcases hb with h | h <;> rw [h] <;> rfl

lemma mask_level (n i : Nat) (hi : i < 8) :
    ((n &&& (1 <<< i)) % 256 != 0) = decide (n / 2 ^ i % 2 = 1) := by
  rw [Bool.eq_iff_iff]
  simp only [bne_iff_ne, decide_eq_true_eq]
  exact AnimationsV2.ledWrite_val_ne_zero n i hi

/-- C19: for every `n` and `i` (in particular every 8-bit `n` and `i < 8`),
`(n >> i) & 1` is nonzero if and only if `n & (1 << i)` is nonzero, and both are
nonzero exactly when bit `i` of `n` is 1; hence `ledWrite(n)` of the binary
counter and `ledWrite(n)` of the two animation exercises drive the same pins, in
the same order, to the same levels. -/
theorem ledWrite_shift_and_mask_same_levels (n i : Nat) :
    ((n >>> i) &&& 1 ≠ 0 ↔ n &&& (1 <<< i) ≠ 0) ∧
      ((n >>> i) &&& 1 ≠ 0 ↔ n / 2 ^ i % 2 = 1) ∧
      (n &&& (1 <<< i) ≠ 0 ↔ n / 2 ^ i % 2 = 1) ∧
      (ledWrite n).map PinEvent.level = (AnimationsV2.ledWrite n).map PinEvent.level ∧
      (ledWrite n).map PinEvent.level = (AnimationsV1.ledWrite n).map PinEvent.level := by
  have hs : (n >>> i) &&& 1 ≠ 0 ↔ n / 2 ^ i % 2 = 1 := by
    rw [AnimationsV2.shiftRight_and_one]
    omega
  have hm : n &&& (1 <<< i) ≠ 0 ↔ n / 2 ^ i % 2 = 1 := by
    rw [AnimationsV2.and_one_shiftLeft]
    have hp : 0 < 2 ^ i := Nat.two_pow_pos i
    have hb : n / 2 ^ i % 2 = 0 ∨ n / 2 ^ i % 2 = 1 := by omega
    rcases hb with h | h <;> rw [h] <;> omega
  have hl : (ledWrite n).map PinEvent.level =
      (AnimationsV2.ledWrite n).map PinEvent.level := by
    unfold ledWrite AnimationsV2.ledWrite
    rw [List.map_map, List.map_map]
    apply List.map_congr_left
    intro j hj
    have hj8 : j < 8 := List.mem_range.1 hj
    simp only [Function.comp, PinEvent.level]
    rw [shift_level n j, mask_level n j hj8]
    rfl
  exact ⟨hs.trans hm.symm, hs, hm, hl, hl⟩

end BinaryCounter

/-! ## Out-of-range index -/

namespace AnimationsV2

/-- C20 as stated fails: `startAnimation(8)` stores 8 in `animation_id`, which is
not below `NUM_ANIMATIONS`, and the next `playAnimation()` or `loop()` reads
`animation[8]`, outside the table; in the first version `startAnimation(8)`
itself reads outside its four tables. -/
theorem startAnimation_8_is_not_checked :
    (startAnimation 8 player).animation_id = 8 ∧
      ¬ (startAnimation 8 player).animation_id < NUM_ANIMATIONS ∧
      animation[(startAnimation 8 player).animation_id]? = none ∧
      playAnimation (startAnimation 8 player) = none ∧
      loop (startAnimation 8 player) 41 = none ∧
      AnimationsV1.startAnimation 8 AnimationsV1.initial = none := by
  decide

/-- C20, amended: `startAnimation(index)` applies no check, it stores `index` in
`animation_id` as given. For every `index ≥ NUM_ANIMATIONS` the state it leaves
has `animation_id ≥ NUM_ANIMATIONS` and the next `playAnimation()` or `loop()`
reads outside the animation table (in the first version `startAnimation` itself
does); for `index < NUM_ANIMATIONS`, the documented precondition, the state it
leaves is inside the tables. -/
theorem startAnimation_applies_no_check (index : Nat) (p : Player) :
    (startAnimation index p).animation_id = index ∧
      (NUM_ANIMATIONS ≤ index →
        animation[(startAnimation index p).animation_id]? = none ∧
        playAnimation (startAnimation index p) = none ∧
        (∀ now, loop (startAnimation index p) now = none) ∧
        ∀ s, AnimationsV1.startAnimation index s = none) ∧
      (index < NUM_ANIMATIONS → InBounds compiled (startAnimation index p)) := by
  refine ⟨rfl, ?_, ?_⟩
  · intro h
    have hnone : animation[index]? = none :=
      List.getElem?_eq_none (by simpa [animation] using h)
    have hnone' : compiled.animation[(startAnimation index p).animation_id]? = none := hnone
    refine ⟨hnone, ?_, ?_, ?_⟩
    · unfold playAnimation playAnimationOn
      simp only [hnone']
    · intro now
      unfold loop loopOn
      simp only [hnone']
    · intro s
      have h1 : AnimationsV1.ANIMATION_START[index]? = none :=
        List.getElem?_eq_none (by simpa [AnimationsV1.ANIMATION_START] using h)
      unfold AnimationsV1.startAnimation
      simp only [h1]
  · intro h
    have h8 : index < 8 := h
    obtain ⟨a, ha, -⟩ := AnimationsV1.tables_agree index h8
    obtain ⟨h1, h2, -⟩ := compiled_tableInvariant.2.2 a (List.getElem?_mem ha)
    exact ⟨h, a, ha, h1, h2⟩

/-- Instance at `index = 200`. -/
theorem startAnimation_applies_no_check_witness :
    NUM_ANIMATIONS ≤ 200 ∧ (startAnimation 200 player).animation_id = 200 ∧
      playAnimation (startAnimation 200 player) = none :=
  ⟨by decide, (startAnimation_applies_no_check 200 player).1,
    ((startAnimation_applies_no_check 200 player).2.1 (by decide)).2.1⟩

end AnimationsV2

/-! ## The switch to the next animation -/

namespace AnimationsV2

lemma elapsed_self (now : Nat) : elapsed now now = 0 := by
  unfold elapsed
  omega

/-- In the program's tables, the last frame of an animation is not the first
frame of the animation that follows it. -/
lemma last_index_ne_next_start (id : Nat) (hid : id < 8) (a b : Animation)
    (ha : animation[id]? = some a) (hb : animation[(id + 1) % 8]? = some b)
    (f : Nat) (hf : f + 1 = a.frames) : a.start + f ≠ b.start := by
  have key : ∀ i, i < 8 →
      (animation.getD i ⟨0, 0, 0, 0⟩).start + ((animation.getD i ⟨0, 0, 0, 0⟩).frames - 1) ≠
        (animation.getD ((i + 1) % 8) ⟨0, 0, 0, 0⟩).start := by decide
  have h := key id hid
  rw [List.getD_eq_getElem?_getD, List.getD_eq_getElem?_getD, ha, hb] at h
  simp only [Option.getD_some] at h
  omega

/-- A `loop()` from an in-bounds state that changes `animation_id` took the
third branch of `playAnimation()`. -/
lemma loop_switch {p q : Player} {out : List PinEvent} {a : Animation} {now : Nat}
    (hb : InBounds compiled p) (ha : animation[p.animation_id]? = some a)
    (hloop : loop p now = some (q, out)) (hsw : q.animation_id ≠ p.animation_id) :
    p.frame + 1 = a.frames ∧ p.repeat_ + 1 = a.repeat_ ∧
      elapsed now p.last_ms > a.frame_delay_ms ∧
      q = { animation_id := (p.animation_id + 1) % 8, repeat_ := 0, frame := 0,
            last_ms := now } ∧
      ∃ frame, ANIMATION_FRAME[a.start + p.frame]? = some frame ∧ out = ledWrite frame := by
  obtain ⟨hid, a', ha', hf, hr⟩ := hb
  have haa : a' = a := Option.some.inj (ha'.symm.trans ha)
  subst haa
  obtain ⟨frame, hfr, -, hl⟩ := loopOn_of_inBounds compiled_tableInvariant hid ha hf now
  have hl' : loop p now = _ := hl
  rw [hl'] at hloop
  by_cases c : elapsed now p.last_ms > a'.frame_delay_ms
  · rw [if_pos c] at hloop
    obtain ⟨hq, ho⟩ := Prod.mk.inj (Option.some.inj hloop)
    unfold advanceRule at hq
    by_cases c1 : p.frame + 1 < a'.frames
    · rw [if_pos c1] at hq
      exact absurd (by rw [← hq]) hsw
    · by_cases c2 : p.repeat_ + 1 < a'.repeat_
      · rw [if_neg c1, if_pos c2] at hq
        exact absurd (by rw [← hq]) hsw
      · rw [if_neg c1, if_neg c2] at hq
        exact ⟨by omega, by omega, c, hq.symm, frame, hfr, ho.symm⟩
  · rw [if_neg c] at hloop
    obtain ⟨hq, -⟩ := Prod.mk.inj (Option.some.inj hloop)
    exact absurd (by rw [← hq]) hsw

lemma frames_ge_two (a : Animation) (ha : a ∈ animation) : 2 ≤ a.frames := by
  have key : ∀ x ∈ animation, 2 ≤ x.frames := by decide
  exact key a ha

/-- Except at the wrap from animation #7 to animation #0, what `ledWrite` writes
for the last frame of an animation differs from what it writes for the first
frame of the next. -/
lemma last_frame_writes_ne_next_first (id : Nat) (hid : id < 7) (a b : Animation)
    (ha : animation[id]? = some a) (hb : animation[(id + 1) % 8]? = some b)
    (f_old f_new : Nat) (ho : ANIMATION_FRAME[a.start + (a.frames - 1)]? = some f_old)
    (hn : ANIMATION_FRAME[b.start]? = some f_new) : ledWrite f_old ≠ ledWrite f_new := by
  have key : ∀ i, i < 7 →
      ledWrite (ANIMATION_FRAME.getD
          ((animation.getD i ⟨0, 0, 0, 0⟩).start +
            ((animation.getD i ⟨0, 0, 0, 0⟩).frames - 1)) 0) ≠
        ledWrite (ANIMATION_FRAME.getD
          (animation.getD ((i + 1) % 8) ⟨0, 0, 0, 0⟩).start 0) := by decide
  have h := key id hid
  simp only [List.getD_eq_getElem?_getD, ha, hb, Option.getD_some, ho, hn] at h
  exact h

/-- At the wrap from animation #7 to animation #0, the last frame of the one and
the first frame of the other are the same pattern. -/
lemma wrap_frames_equal (a b : Animation) (ha : animation[7]? = some a)
    (hb : animation[0]? = some b) (f_old f_new : Nat)
    (ho : ANIMATION_FRAME[a.start + (a.frames - 1)]? = some f_old)
    (hn : ANIMATION_FRAME[b.start]? = some f_new) : f_old = f_new := by
  have key : ANIMATION_FRAME.getD
        ((animation.getD 7 ⟨0, 0, 0, 0⟩).start + ((animation.getD 7 ⟨0, 0, 0, 0⟩).frames - 1)) 0 =
      ANIMATION_FRAME.getD (animation.getD 0 ⟨0, 0, 0, 0⟩).start 0 := by decide
  simp only [List.getD_eq_getElem?_getD, ha, hb, Option.getD_some, ho, hn] at key
  exact key

set_option maxRecDepth 1000000 in
/-- C21 as stated fails: in no state the run can reach and for no clock value
does the `loop()` that moves the player to the next animation write anything
but the frame under the cursor it had (the last frame of the animation it
leaves), and it never leaves the cursor past frame 0 of the next animation: the
first frame of the next animation is still to come. At the wrap from animation
#7 to animation #0 the two frames are the same pattern `0b10000000` (entries 88
and 0 of the table): the switching `loop()` writes entry 88, nothing is written
until more than 40 ms have passed, and then entry 0 is written and the cursor
moves to frame 1. At the switch from #4 to #5 the pattern written is
`0b10101010`, not the first frame `0b00010001` of animation #5. -/
theorem no_loop_renders_first_frame_of_next_animation :
    (¬ ∃ (t0 : Nat) (clocks : List Nat) (now : Nat) (p q : Player) (out : List PinEvent)
        (a : Animation) (f_old : Nat),
      run t0 clocks = some p ∧ loop p now = some (q, out) ∧
        q.animation_id ≠ p.animation_id ∧ animation[p.animation_id]? = some a ∧
        ANIMATION_FRAME[a.start + p.frame]? = some f_old ∧
        (out ≠ ledWrite f_old ∨ q.frame ≠ 0)) ∧
      run 0 (everyMs 121 346) = some ⟨7, 0, 36, 41866⟩ ∧
      ANIMATION_FRAME[52 + 36]? = some 0b10000000 ∧
      ANIMATION_FRAME[0]? = some 0b10000000 ∧
      loop ⟨7, 0, 36, 41866⟩ 41987 = some (⟨0, 0, 0, 41987⟩, ledWrite 0b10000000) ∧
      loop ⟨0, 0, 0, 41987⟩ 41987 = some (⟨0, 0, 0, 41987⟩, []) ∧
      loop ⟨0, 0, 0, 41987⟩ 42027 = some (⟨0, 0, 0, 41987⟩, []) ∧
      loop ⟨0, 0, 0, 41987⟩ 42028 = some (⟨0, 0, 1, 42028⟩, ledWrite 0b10000000) ∧
      run 0 (everyMs 121 221) = some ⟨4, 9, 1, 26741⟩ ∧
      ANIMATION_FRAME[40]? = some 0b00010001 ∧
      loop ⟨4, 9, 1, 26741⟩ 26862 = some (⟨5, 0, 0, 26862⟩, ledWrite 0b10101010) ∧
      ledWrite 0b10101010 ≠ ledWrite 0b00010001 := by
  refine ⟨?_, by decide, by decide, by decide, by decide, by decide, by decide, by decide,
    by decide, by decide, by decide, by decide⟩
  rintro ⟨t0, clocks, now, p, q, out, a, f_old, hrun, hloop, hsw, ha, hfo, hor⟩
  obtain ⟨p', hrun', hin⟩ := run_inBounds t0 clocks
  have hpp : p' = p := Option.some.inj (hrun'.symm.trans hrun)
  subst hpp
  obtain ⟨-, -, -, hq, frame, hfr, hout⟩ := loop_switch hin ha hloop hsw
  have hff : frame = f_old := Option.some.inj (hfr.symm.trans hfo)
  subst hff
  rcases hor with h | h
  · exact h hout
  · rw [hq] at h
    exact h rfl

/-- C21, amended: whenever a `loop()` from a state the run can reach moves the
player to the next animation, the state was on the last frame of the last repeat
of its animation; the `loop()` writes that frame and nothing else (table index
`start + frames - 1`, which is not the start of the next animation; what is
written differs from what the first frame of the next animation writes, except
at the wrap from #7 to #0, where the two frames are the same pattern); it
leaves the cursor on frame 0, repeat 0 of
the next animation with `last_ms = now`. The first frame of the next animation
is written by a later `loop()`: as long as the elapsed time since the switch
does not exceed the `frame_delay_ms` of the next animation, `loop()` writes
nothing; as soon as it exceeds it, `loop()` writes that first frame and moves
the cursor to frame 1. -/
theorem switching_loop_renders_last_frame_of_old_animation (t0 : Nat) (clocks : List Nat)
    (now : Nat) (p q : Player) (out : List PinEvent)
    (hrun : run t0 clocks = some p) (hloop : loop p now = some (q, out))
    (hsw : q.animation_id ≠ p.animation_id) :
    ∃ a b f_old f_new, animation[p.animation_id]? = some a ∧
      animation[q.animation_id]? = some b ∧
      p.frame + 1 = a.frames ∧ p.repeat_ + 1 = a.repeat_ ∧
      a.start + a.frames - 1 ≠ b.start ∧
      ANIMATION_FRAME[a.start + a.frames - 1]? = some f_old ∧
      ANIMATION_FRAME[b.start]? = some f_new ∧
      out = ledWrite f_old ∧
      (p.animation_id ≠ 7 → out ≠ ledWrite f_new) ∧
      (p.animation_id = 7 → f_old = f_new) ∧
      q = { animation_id := (p.animation_id + 1) % NUM_ANIMATIONS, repeat_ := 0, frame := 0,
            last_ms := now } ∧
      loop q now = some (q, []) ∧
      (∀ later, ¬ elapsed later now > b.frame_delay_ms → loop q later = some (q, [])) ∧
      (∀ later, elapsed later now > b.frame_delay_ms →
        loop q later =
          some ({ animation_id := q.animation_id, repeat_ := 0, frame := 1, last_ms := later },
            ledWrite f_new)) := by
  obtain ⟨p', hrun', hin⟩ := run_inBounds t0 clocks
  have hpp : p' = p := Option.some.inj (hrun'.symm.trans hrun)
  subst hpp
  obtain ⟨hid, a, ha, hf, hr⟩ := hin
  obtain ⟨h1, h2, -, hq, frame, hfr, hout⟩ := loop_switch ⟨hid, a, ha, hf, hr⟩ ha hloop hsw
  have hidx : a.start + a.frames - 1 = a.start + p'.frame := by omega
  have hqin : InBounds compiled q := by
    have := advanceRule_inBounds compiled_tableInvariant hid ha hf hr
    have e : advanceRule a compiled.NUM_ANIMATIONS p' =
        { q with last_ms := p'.last_ms } := by
      rw [hq]
      unfold advanceRule
      rw [if_neg (show ¬ p'.frame + 1 < a.frames by omega),
        if_neg (show ¬ p'.repeat_ + 1 < a.repeat_ by omega)]
      rfl
    rw [e] at this
    exact this
  obtain ⟨hqid, b, hb, hqf, hqr⟩ := hqin
  have hb' : animation[(p'.animation_id + 1) % 8]? = some b := by
    rw [hq] at hb; exact hb
  have hne := last_index_ne_next_start p'.animation_id hid a b ha hb' p'.frame h1
  have hqms : q.last_ms = now := by rw [hq]
  have hqfr : q.frame = 0 := by rw [hq]
  have hqrp : q.repeat_ = 0 := by rw [hq]
  obtain ⟨f_new, hfn, -, hl2⟩ :=
    loopOn_of_inBounds compiled_tableInvariant hqid hb hqf now
  have hfn' : ANIMATION_FRAME[b.start]? = some f_new := by
    rw [hqfr, Nat.add_zero] at hfn; exact hfn
  have hstep : ∀ later, loop q later =
      if elapsed later now > b.frame_delay_ms then
        some ({ advanceRule b compiled.NUM_ANIMATIONS q with last_ms := later },
          ledWrite f_new)
      else some (q, []) := by
    intro later
    obtain ⟨f2, hf2, -, hl3⟩ :=
      loopOn_of_inBounds compiled_tableInvariant hqid hb hqf later
    have e2 : f2 = f_new := Option.some.inj (hf2.symm.trans hfn)
    rw [e2, hqms] at hl3
    exact hl3
  have hlater : ∀ later, ¬ elapsed later now > b.frame_delay_ms →
      loop q later = some (q, []) := by
    intro later hl
    rw [hstep later, if_neg hl]
  have hfo : ANIMATION_FRAME[a.start + (a.frames - 1)]? = some frame := by
    have e3 : a.start + (a.frames - 1) = a.start + p'.frame := by omega
    rw [e3]; exact hfr
  refine ⟨a, b, frame, f_new, ha, hb, h1, h2, ?_, ?_, hfn', hout, ?_, ?_, hq, ?_, hlater, ?_⟩
  · rw [hidx]; exact hne
  · rw [hidx]; exact hfr
  · intro h7
    have hid8 : p'.animation_id < 8 := hid
    rw [hout]
    exact last_frame_writes_ne_next_first p'.animation_id (by omega) a b ha hb' frame f_new
      hfo hfn'
  · intro h7
    rw [h7] at ha hb'
    exact wrap_frames_equal a b ha hb' frame f_new hfo hfn'
  · apply hlater
    rw [elapsed_self]
    omega
  · intro later hl
    rw [hstep later, if_pos hl]
    have h2f := frames_ge_two b (List.getElem?_mem hb)
    unfold advanceRule
    rw [if_pos (show q.frame + 1 < b.frames by omega), hqfr, hqrp]

set_option maxRecDepth 1000000 in
/-- Instance on the switch from animation #4 to animation #5, reached by one
`loop()` every 121 ms: the `loop()` at 26862 writes the last frame of
animation #4 and leaves the cursor at the start of animation #5; a `loop()` 80
ms later writes nothing, a `loop()` 81 ms later writes the first frame of
animation #5. -/
theorem switching_loop_renders_last_frame_of_old_animation_witness :
    run 0 (everyMs 121 221) = some ⟨4, 9, 1, 26741⟩ ∧
      loop ⟨4, 9, 1, 26741⟩ 26862 = some (⟨5, 0, 0, 26862⟩, ledWrite 0b10101010) ∧
      (5 : Nat) ≠ 4 ∧ loop ⟨5, 0, 0, 26862⟩ 26862 = some (⟨5, 0, 0, 26862⟩, []) ∧
      loop ⟨5, 0, 0, 26862⟩ 26942 = some (⟨5, 0, 0, 26862⟩, []) ∧
      ∃ f_new, ANIMATION_FRAME[40]? = some f_new ∧
        loop ⟨5, 0, 0, 26862⟩ 26943 = some (⟨5, 0, 1, 26943⟩, ledWrite f_new) := by
  have hrun : run 0 (everyMs 121 221) = some ⟨4, 9, 1, 26741⟩ := by decide
  have hloop : loop ⟨4, 9, 1, 26741⟩ 26862 =
      some (⟨5, 0, 0, 26862⟩, ledWrite 0b10101010) := by decide
  obtain ⟨a, b, f_old, f_new, -, hb, -, -, -, -, hfn, -, -, -, -, h0, hno, hyes⟩ :=
    switching_loop_renders_last_frame_of_old_animation 0 (everyMs 121 221) 26862
      ⟨4, 9, 1, 26741⟩ ⟨5, 0, 0, 26862⟩ (ledWrite 0b10101010) hrun hloop (by decide)
  have hb5 : b = ⟨40, 4, 80, 8⟩ := by
    have : animation[5]? = some (⟨40, 4, 80, 8⟩ : Animation) := by decide
    exact (Option.some.inj (this.symm.trans hb)).symm
  subst hb5
  exact ⟨hrun, hloop, by decide, h0, hno 26942 (by decide), f_new, hfn,
    hyes 26943 (by decide)⟩

/-- C22: in every state the run of the program can reach, `playAnimation()` is
defined and takes exactly one of its three branches (their guards exclude one
another and the three candidate next states are pairwise different), and the
tuple `(animation_id, frame, repeat)` it leaves differs from the one before. -/
theorem reachable_step_takes_one_branch_and_moves (t0 : Nat) (clocks : List Nat) :
    ∃ p a q out, run t0 clocks = some p ∧ animation[p.animation_id]? = some a ∧
      playAnimation p = some (q, out) ∧
      ((p.frame + 1 < a.frames ∧ q = { p with frame := p.frame + 1 }) ∨
        (¬ p.frame + 1 < a.frames ∧ p.repeat_ + 1 < a.repeat_ ∧
          q = { p with frame := 0, repeat_ := p.repeat_ + 1 }) ∨
        (¬ p.frame + 1 < a.frames ∧ ¬ p.repeat_ + 1 < a.repeat_ ∧
          q = { p with animation_id := (p.animation_id + 1) % NUM_ANIMATIONS,
                       frame := 0, repeat_ := 0 })) ∧
      ({ p with frame := p.frame + 1 } : Player) ≠
        { p with frame := 0, repeat_ := p.repeat_ + 1 } ∧
      ({ p with frame := p.frame + 1 } : Player) ≠
        { p with animation_id := (p.animation_id + 1) % NUM_ANIMATIONS,
                 frame := 0, repeat_ := 0 } ∧
      ({ p with frame := 0, repeat_ := p.repeat_ + 1 } : Player) ≠
        { p with animation_id := (p.animation_id + 1) % NUM_ANIMATIONS,
                 frame := 0, repeat_ := 0 } ∧
      (q.animation_id, q.frame, q.repeat_) ≠ (p.animation_id, p.frame, p.repeat_) := by
  obtain ⟨p, hrun, hid, a, ha, hf, hr⟩ := run_inBounds t0 clocks
  obtain ⟨frame, -, hplay⟩ := playAnimationOn_of_inBounds compiled_tableInvariant hid ha hf
  have hid8 : p.animation_id < 8 := hid
  refine ⟨p, a, _, _, hrun, ha, hplay, ?_, ?_, ?_, ?_, ?_⟩
  · unfold advanceRule
    by_cases c1 : p.frame + 1 < a.frames
    · exact Or.inl ⟨c1, by rw [if_pos c1]⟩
    · by_cases c2 : p.repeat_ + 1 < a.repeat_
      · exact Or.inr (Or.inl ⟨c1, c2, by rw [if_neg c1, if_pos c2]⟩)
      · exact Or.inr (Or.inr ⟨c1, c2, by rw [if_neg c1, if_neg c2]; rfl⟩)
  · intro h
    have := congrArg Player.frame h
    simp at this
  · intro h
    have := congrArg Player.frame h
    simp at this
  · intro h
    have := congrArg Player.repeat_ h
    simp at this
  · unfold advanceRule
    split_ifs with c1 c2
    · simp
    · simp
    · simp only [ne_eq, Prod.mk.injEq, not_and]
      intro h
      have h8 : (p.animation_id + 1) % 8 = p.animation_id := h
      omega

/-! ## The period of the playlist -/

/-- The date `last_ms` plays no part in `playAnimation()`. -/
lemma playAnimationOn_set_last_ms (T : Playlist) (p : Player) (m : Nat) :
    playAnimationOn T { p with last_ms := m } =
      (playAnimationOn T p).map fun r => ({ r.1 with last_ms := m }, r.2) := by
  unfold playAnimationOn
  simp only
  cases T.animation[p.animation_id]? with
  | none => rfl
  | some a =>
    simp only
    cases T.ANIMATION_FRAME[a.start + p.frame]? with
    | none => rfl
    | some frame =>
      simp only
      split_ifs <;> rfl

lemma playManyOn_set_last_ms (T : Playlist) (n : Nat) (p : Player) (m : Nat) :
    playManyOn T n { p with last_ms := m } =
      (playManyOn T n p).map fun r => ({ r.1 with last_ms := m }, r.2) := by
  induction n generalizing p with
  | zero => rfl
  | succ n ih =>
    simp only [playManyOn, playAnimationOn_set_last_ms]
    cases playAnimationOn T p with
    | none => rfl
    | some r =>
      obtain ⟨p1, out⟩ := r
      simp only [Option.map_some']
      rw [ih p1]
      cases playManyOn T n p1 with
      | none => rfl
      | some r2 => rfl

/-- Any number of advance steps from a state inside the tables is defined. -/
lemma playManyOn_inBounds {T : Playlist} (hT : TableInvariant T) (n : Nat) (p : Player)
    (hp : InBounds T p) :
    ∃ q outs, playManyOn T n p = some (q, outs) ∧ InBounds T q ∧ outs.length = n := by
  induction n generalizing p with
  | zero => exact ⟨p, [], rfl, hp, rfl⟩
  | succ n ih =>
    obtain ⟨hid, a, ha, hf, hr⟩ := hp
    obtain ⟨frame, -, hplay⟩ := playAnimationOn_of_inBounds hT hid ha hf
    obtain ⟨q, outs, h, hq, hlen⟩ := ih _ (advanceRule_inBounds hT hid ha hf hr)
    exact ⟨q, ledWrite frame :: outs, by simp only [playManyOn, hplay, h], hq,
      by simp [hlen]⟩

/-- The steps `a + b` are the steps `a` followed by the steps `b`. -/
lemma playManyOn_add (T : Playlist) (a b : Nat) (p q r : Player)
    (o1 o2 : List (List PinEvent)) (h1 : playManyOn T a p = some (q, o1))
    (h2 : playManyOn T b q = some (r, o2)) :
    playManyOn T (a + b) p = some (r, o1 ++ o2) := by
  induction a generalizing p o1 with
  | zero =>
    simp only [playManyOn, Option.some.injEq, Prod.mk.injEq] at h1
    obtain ⟨rfl, rfl⟩ := h1
    simpa using h2
  | succ a ih =>
    rw [Nat.add_right_comm]
    simp only [playManyOn] at h1 ⊢
    cases hp : playAnimationOn T p with
    | none => rw [hp] at h1; exact absurd h1 (by simp)
    | some x =>
      obtain ⟨p1, out⟩ := x
      rw [hp] at h1
      simp only at h1 ⊢
      cases hm : playManyOn T a p1 with
      | none => rw [hm] at h1; exact absurd h1 (by simp)
      | some y =>
        obtain ⟨q1, os⟩ := y
        rw [hm] at h1
        simp only [Option.some.injEq, Prod.mk.injEq] at h1
        obtain ⟨rfl, rfl⟩ := h1
        rw [ih p1 os hm]
        rfl

set_option maxRecDepth 10000000 in
lemma cursor_after_347 :
    (playManyOn compiled 347 ⟨0, 0, 0, 0⟩).map Prod.fst = some ⟨0, 0, 0, 0⟩ := by
  decide

set_option maxRecDepth 10000000 in
lemma cursor_before_347 : ∀ n, n < 347 → 0 < n →
    (playManyOn compiled n ⟨0, 0, 0, 0⟩).map
      (fun r => (r.1.animation_id, r.1.frame, r.1.repeat_)) ≠ some (0, 0, 0) := by
  decide

/-- C23: the sum of `frames * repeat` over the 8 animations is 347; from
(animation 0, frame 0, repeat 0) the 347th advance step leaves that same state,
no positive number of steps below 347 does, and the events of the steps
`347 + n` are the events of the first 347 steps followed by the events of the
first `n` steps: the rendered patterns repeat with period 347. -/
theorem playlist_returns_after_347_steps (ms : Nat) :
    (animation.map fun a => a.frames * a.repeat_) = [56, 48, 50, 48, 20, 32, 56, 37] ∧
      (animation.map fun a => a.frames * a.repeat_).sum = 347 ∧
      (∃ cycle, playManyOn compiled 347 ⟨0, 0, 0, ms⟩ = some (⟨0, 0, 0, ms⟩, cycle) ∧
        cycle.length = 347 ∧
        ∀ n, ∃ q outs, playManyOn compiled n ⟨0, 0, 0, ms⟩ = some (q, outs) ∧
          playManyOn compiled (347 + n) ⟨0, 0, 0, ms⟩ = some (q, cycle ++ outs)) ∧
      ∀ n, 0 < n → n < 347 →
        ∃ q outs, playManyOn compiled n ⟨0, 0, 0, ms⟩ = some (q, outs) ∧
          (q.animation_id, q.frame, q.repeat_) ≠ (0, 0, 0) := by
  have hin : InBounds compiled ⟨0, 0, 0, ms⟩ :=
    ⟨(show 0 < 8 by decide), ⟨0, 14, 40, 4⟩, rfl, (show 0 < 14 by decide),
      (show 0 < 4 by decide)⟩
  have hms : ∀ n, playManyOn compiled n ⟨0, 0, 0, ms⟩ =
      (playManyOn compiled n ⟨0, 0, 0, 0⟩).map fun r => ({ r.1 with last_ms := ms }, r.2) :=
    fun n => playManyOn_set_last_ms compiled n ⟨0, 0, 0, 0⟩ ms
  refine ⟨by decide, by decide, ?_, ?_⟩
  · obtain ⟨q, cycle, h, -, hlen⟩ := playManyOn_inBounds compiled_tableInvariant 347 _ hin
    have hq : q = ⟨0, 0, 0, ms⟩ := by
      have h0 := cursor_after_347
      have h' := hms 347
      rw [h] at h'
      cases h0' : playManyOn compiled 347 ⟨0, 0, 0, 0⟩ with
      | none => rw [h0'] at h'; exact absurd h' (by simp)
      | some r =>
        rw [h0'] at h' h0
        simp only [Option.map_some', Option.some.injEq] at h' h0
        rw [h0] at h'
        exact (Prod.mk.inj h').1
    subst hq
    refine ⟨cycle, h, hlen, ?_⟩
    intro n
    obtain ⟨q, outs, hn, -, -⟩ := playManyOn_inBounds compiled_tableInvariant n _ hin
    exact ⟨q, outs, hn, playManyOn_add compiled 347 n _ _ _ _ _ h hn⟩
  · intro n hpos hlt
    obtain ⟨q, outs, hn, -, -⟩ := playManyOn_inBounds compiled_tableInvariant n _ hin
    refine ⟨q, outs, hn, ?_⟩
    have h0 := cursor_before_347 n hlt hpos
    have h' := hms n
    rw [hn] at h'
    cases h0' : playManyOn compiled n ⟨0, 0, 0, 0⟩ with
    | none => rw [h0'] at h'; exact absurd h' (by simp)
    | some r =>
      rw [h0'] at h' h0
      simp only [Option.map_some', Option.some.injEq] at h'
      simp only [Option.map_some', ne_eq, Option.some.injEq] at h0
      rw [(Prod.mk.inj h').1]
      exact h0

/-- Instance after the 56 steps of animation #0: the cursor is at the start of
animation #1, not back at the start of the playlist. -/
theorem playlist_returns_after_347_steps_witness :
    (0 < 56) ∧ (56 < 347) ∧
      ∃ q outs, playManyOn compiled 56 ⟨0, 0, 0, 9⟩ = some (q, outs) ∧
        (q.animation_id, q.frame, q.repeat_) ≠ (0, 0, 0) :=
  ⟨by decide, by decide, (playlist_returns_after_347_steps 9).2.2.2 56 (by decide) (by decide)⟩

end AnimationsV2

/-! ## The cached values of the first version -/

namespace AnimationsV1

/-- C24: in the first version, after `setup()` and any number of `loop()`
iterations, whatever the clock values, the run is defined, `animation_id` is
below `NUM_ANIMATIONS` and the four cached globals are the entries of the four
tables at `animation_id`; in particular the delay `loop()` compares with is
`ANIMATION_DELAY_MS[animation_id]`. -/
theorem cached_globals_agree_with_tables (t0 : Nat) (clocks : List Nat) :
    ∃ s outs, run t0 clocks = some (s, outs) ∧ s.animation_id < NUM_ANIMATIONS ∧
      ANIMATION_START[s.animation_id]? = some s.animation_start ∧
      ANIMATION_FRAMES[s.animation_id]? = some s.animation_frames ∧
      ANIMATION_DELAY_MS[s.animation_id]? = some s.animation_delay_ms ∧
      ANIMATION_REPEAT[s.animation_id]? = some s.animation_repeat := by
  obtain ⟨s0, hsetup, hc0, -⟩ := setup_cached t0
  obtain ⟨s, outs, h1, -, hid, hs, hf, hd, hr, -⟩ := loopMany_sim clocks s0 hc0
  exact ⟨s, outs, by simp only [run, hsetup, h1], hid, hs, hf, hd, hr⟩

end AnimationsV1

/-! ## The layout of the frame table -/

namespace AnimationsV2

/-- C25: the frame ranges of the 8 animations tile `ANIMATION_FRAME`: the first
starts at 0, each animation starts where the one before ends, the last ends at
89, the length of the table; every entry of the table is in the range of
exactly one animation. -/
theorem frame_ranges_tile_the_table (i j : Nat) (hi : i + 1 < NUM_ANIMATIONS)
    (hj : j < ANIMATION_FRAME.length) :
    (∃ a, animation[0]? = some a ∧ a.start = 0) ∧
      (∃ a b, animation[i]? = some a ∧ animation[i + 1]? = some b ∧
        b.start = a.start + a.frames) ∧
      (∃ a, animation[NUM_ANIMATIONS - 1]? = some a ∧ a.start + a.frames = 89 ∧
        ANIMATION_FRAME.length = 89) ∧
      (animation.filter fun a => decide (a.start ≤ j ∧ j < a.start + a.frames)).length = 1 := by
  have hcount : ∀ k, k < ANIMATION_FRAME.length →
      (animation.filter fun a => decide (a.start ≤ k ∧ k < a.start + a.frames)).length = 1 := by
    decide
  have hi7 : i < 7 := by
    have : i + 1 < 8 := hi
    omega
  refine ⟨⟨_, rfl, rfl⟩, ?_, ⟨_, rfl, rfl, rfl⟩, hcount j hj⟩
  interval_cases i <;> exact ⟨_, _, rfl, rfl, rfl⟩

/-- Instance: animation #7 starts where animation #6 ends, and entry 52 of the
table belongs to one animation only. -/
theorem frame_ranges_tile_the_table_witness :
    (6 + 1 < NUM_ANIMATIONS) ∧ (52 < ANIMATION_FRAME.length) ∧
      (∃ a b, animation[6]? = some a ∧ animation[6 + 1]? = some b ∧
        b.start = a.start + a.frames) ∧
      (animation.filter fun a => decide (a.start ≤ 52 ∧ 52 < a.start + a.frames)).length = 1 :=
  ⟨by decide, by decide, (frame_ranges_tile_the_table 6 52 (by decide) (by decide)).2.1,
    (frame_ranges_tile_the_table 6 52 (by decide) (by decide)).2.2.2⟩

/-! ## The levels of the lines -/

lemma ledWrite_eq_list (p : Nat) :
    ledWrite p =
      [PinEvent.digitalWrite 5 ((p &&& (1 <<< 0)) % 256),
       PinEvent.digitalWrite 6 ((p &&& (1 <<< 1)) % 256),
       PinEvent.digitalWrite 7 ((p &&& (1 <<< 2)) % 256),
       PinEvent.digitalWrite 8 ((p &&& (1 <<< 3)) % 256),
       PinEvent.digitalWrite 9 ((p &&& (1 <<< 4)) % 256),
       PinEvent.digitalWrite 10 ((p &&& (1 <<< 5)) % 256),
       PinEvent.digitalWrite 11 ((p &&& (1 <<< 6)) % 256),
       PinEvent.digitalWrite 12 ((p &&& (1 <<< 7)) % 256)] := rfl

/-- The level of a pin after `ledWrite(p)`: for the pin of line `i`, bit `i` of
`p`; for any other pin, the level it had. -/
lemma applyEvents_ledWrite (prior : Nat → Bool) (p pin : Nat) :
    applyEvents prior (ledWrite p) pin =
      if 5 ≤ pin ∧ pin < 13 then decide (p / 2 ^ (pin - 5) % 2 = 1) else prior pin := by
  rw [ledWrite_eq_list]
  simp only [applyEvents, List.foldl, PinEvent.apply]
  have h (i : Nat) (hi : i < 8) :
      ((p &&& (1 <<< i)) % 256 != 0) = decide (p / 2 ^ i % 2 = 1) :=
    BinaryCounter.mask_level p i hi
  rw [h 0 (by decide), h 1 (by decide), h 2 (by decide), h 3 (by decide), h 4 (by decide),
    h 5 (by decide), h 6 (by decide), h 7 (by decide)]
  by_cases c : 5 ≤ pin ∧ pin < 13
  · rw [if_pos c]
    obtain ⟨c1, c2⟩ := c
    interval_cases pin <;> rfl
  · rw [if_neg c]
    have hne : pin ≠ 5 ∧ pin ≠ 6 ∧ pin ≠ 7 ∧ pin ≠ 8 ∧ pin ≠ 9 ∧ pin ≠ 10 ∧ pin ≠ 11 ∧
        pin ≠ 12 := by omega
    obtain ⟨n5, n6, n7, n8, n9, n10, n11, n12⟩ := hne
    simp only [if_neg n5, if_neg n6, if_neg n7, if_neg n8, if_neg n9, if_neg n10,
      if_neg n11, if_neg n12]

lemma applyEvents_append (lines : Nat → Bool) (e1 e2 : List PinEvent) :
    applyEvents lines (e1 ++ e2) = applyEvents (applyEvents lines e1) e2 := by
  simp only [applyEvents, List.foldl_append]

/-- C26: for every pattern `p` and every prior level of the pins, after
`ledWrite(p)` line `i` (pin `LED_PIN[i]`) is high exactly when bit `i` of `p` is
1, whatever the levels were before; `ledWrite(p)` twice, and `ledWrite(q)`
followed by `ledWrite(p)`, leave all pins as a single `ledWrite(p)` does. -/
theorem ledWrite_determines_line_state (p q : Nat) (prior other : Nat → Bool) (i : Nat)
    (hi : i < 8) :
    (∃ pin, LED_PIN[i]? = some pin ∧
      applyEvents prior (ledWrite p) pin = decide (p / 2 ^ i % 2 = 1) ∧
      applyEvents prior (ledWrite p) pin = applyEvents other (ledWrite p) pin) ∧
      applyEvents prior (ledWrite p ++ ledWrite p) = applyEvents prior (ledWrite p) ∧
      applyEvents prior (ledWrite q ++ ledWrite p) = applyEvents prior (ledWrite p) := by
  refine ⟨⟨LED_PIN.getD i 0, LED_PIN_getD i hi, ?_, ?_⟩, ?_, ?_⟩
  · rw [applyEvents_ledWrite]
    interval_cases i <;> rfl
  · rw [applyEvents_ledWrite, applyEvents_ledWrite]
    interval_cases i <;> rfl
  · funext pin
    rw [applyEvents_append, applyEvents_ledWrite, applyEvents_ledWrite]
    split_ifs <;> rfl
  · funext pin
    rw [applyEvents_append, applyEvents_ledWrite, applyEvents_ledWrite,
      applyEvents_ledWrite]
    split_ifs <;> rfl

/-- Instance: after `ledWrite(0b11111111)` then `ledWrite(0b00000100)` on lines
that were all high, line 7 (pin 12) is low and line 2 (pin 7) is high. -/
theorem ledWrite_determines_line_state_witness :
    (7 < 8) ∧ (2 < 8) ∧
      applyEvents (fun _ => true) (ledWrite 0b11111111 ++ ledWrite 0b00000100) 12 = false ∧
      applyEvents (fun _ => true) (ledWrite 0b11111111 ++ ledWrite 0b00000100) 7 = true := by
  have h := ledWrite_determines_line_state 0b00000100 0b11111111 (fun _ => true)
    (fun _ => false) 7 (by decide)
  refine ⟨by decide, by decide, ?_, ?_⟩
  · rw [h.2.2]; rfl
  · rw [h.2.2]; rfl

end AnimationsV2

/-! ## The binary counter -/

lemma rendered_cons_nil (outs : List (List PinEvent)) : rendered ([] :: outs) = rendered outs :=
  rfl

lemma rendered_cons_cons (e : PinEvent) (out : List PinEvent) (outs : List (List PinEvent)) :
    rendered ((e :: out) :: outs) = (e :: out) :: rendered outs :=
  rfl

namespace BinaryCounter

end BinaryCounter

/-! ## The simple animation -/

namespace SimpleAnimation

end SimpleAnimation

/-! ## The revised blink -/

namespace RevisedBlink

/-- C29 fails on the program at the rollover of the 32-bit clock: when
`millis()` returns 4294966296 the LED is driven low (296 is not below 100);
1000 ms later the counter reads 0 and the LED is driven high. The flash that
starts at 4294967000 is followed by a flash at 0, 296 ms later. -/
theorem blink_levels_differ_across_rollover :
    loop 4294966296 = [PinEvent.digitalWrite 5 0] ∧
      (4294966296 + 1000) % 4294967296 = 0 ∧
      loop 0 = [PinEvent.digitalWrite 5 1] ∧
      loop 4294967000 = [PinEvent.digitalWrite 5 1] ∧
      loop 4294967100 = [PinEvent.digitalWrite 5 0] ∧
      (4294967000 + 296) % 4294967296 = 0 := by
  decide

end RevisedBlink

/-! ## The two-way scanning -/

namespace TwoWayScanning

lemma LED_PIN_lookup (i : Nat) (hi : i < 8) : LED_PIN[i]? = some (LED_PIN.getD i 0) := by
  interval_cases i <;> rfl

/-- The shift `loop()` makes when the flash duration is over, from a state with
`active_pin ≤ 7` and `direction = ±1`: the direction is reversed at the two ends,
the active LED is switched off and its neighbour in the direction is switched on. -/
lemma loop_shift (s : State) (now now2 : Nat) (hp : s.active_pin ≤ 7)
    (hd : s.direction = 1 ∨ s.direction = -1)
    (c : elapsed now s.last_shift_ms > FLASH_DURATION_MS) :
    loop s now now2 =
      some ({ active_pin :=
                if s.direction = 1 then (if s.active_pin = 7 then 6 else s.active_pin + 1)
                else (if s.active_pin = 0 then 1 else s.active_pin - 1),
              direction :=
                if s.direction = 1 then (if s.active_pin = 7 then -1 else 1)
                else (if s.active_pin = 0 then 1 else -1),
              last_shift_ms := now2 },
        [PinEvent.digitalWrite (LED_PIN.getD s.active_pin 0) LOW,
         PinEvent.digitalWrite
           (LED_PIN.getD
             (if s.direction = 1 then (if s.active_pin = 7 then 6 else s.active_pin + 1)
              else (if s.active_pin = 0 then 1 else s.active_pin - 1)) 0) HIGH]) := by
  obtain ⟨ap, dir, ms⟩ := s
  simp only at hp hd c
  have hap : ap < 8 := by omega
  rcases hd with rfl | rfl
  · interval_cases ap <;> (simp only [loop, if_pos c]; rfl)
  · interval_cases ap <;> (simp only [loop, if_pos c]; rfl)

/-- One `loop()` from a state with `active_pin ≤ 7` and `direction = ±1` is
defined, keeps both properties and moves `active_pin` by at most one. -/
lemma loop_inv (s : State) (now now2 : Nat) (hp : s.active_pin ≤ 7)
    (hd : s.direction = 1 ∨ s.direction = -1) :
    ∃ q out, loop s now now2 = some (q, out) ∧ q.active_pin ≤ 7 ∧
      (q.direction = 1 ∨ q.direction = -1) ∧
      (q = s ∨ q.active_pin = s.active_pin + 1 ∨ q.active_pin + 1 = s.active_pin) := by
  by_cases c : elapsed now s.last_shift_ms > FLASH_DURATION_MS
  · refine ⟨_, _, loop_shift s now now2 hp hd c, ?_, ?_, ?_⟩
    · simp only
      split_ifs <;> omega
    · simp only
      split_ifs <;> simp
    · simp only
      rcases hd with h | h
      · rw [if_pos h]
        split_ifs <;> omega
      · have h1 : ¬ s.direction = 1 := by rw [h]; decide
        rw [if_neg h1]
        split_ifs <;> omega
  · exact ⟨s, [], by simp only [loop, if_neg c], hp, hd, Or.inl rfl⟩

/-- Any number of `loop()` iterations keeps `active_pin ≤ 7` and `direction = ±1`. -/
lemma loopMany_inv (clocks : List (Nat × Nat)) (s : State) (hp : s.active_pin ≤ 7)
    (hd : s.direction = 1 ∨ s.direction = -1) :
    ∃ q outs, loopMany clocks s = some (q, outs) ∧ q.active_pin ≤ 7 ∧
      (q.direction = 1 ∨ q.direction = -1) := by
  induction clocks generalizing s with
  | nil => exact ⟨s, [], rfl, hp, hd⟩
  | cons c rest ih =>
    obtain ⟨now, now2⟩ := c
    obtain ⟨s1, out, h1, hp1, hd1, -⟩ := loop_inv s now now2 hp hd
    obtain ⟨q, outs, h2, hq⟩ := ih s1 hp1 hd1
    exact ⟨q, out :: outs, by simp only [loopMany, h1, h2], hq⟩

/-- C30: in the two-way scanning, after `setup()` and any number of `loop()`
iterations, whatever the clock values, the run is defined (no read of `LED_PIN`
is out of range), `active_pin` is at most 7 and `direction` is +1 or -1; the
next `loop()` is defined too and leaves `active_pin` unchanged or moved by one,
still at most 7: it never wraps. -/
theorem scanning_active_pin_in_range (t0 : Nat) (clocks : List (Nat × Nat)) :
    ∃ s ev outs, run t0 clocks = some (s, ev, outs) ∧ s.active_pin ≤ 7 ∧
      (s.direction = 1 ∨ s.direction = -1) ∧
      (∃ pin, LED_PIN[s.active_pin]? = some pin) ∧
      ∀ now now2, ∃ q out, loop s now now2 = some (q, out) ∧ q.active_pin ≤ 7 ∧
        (q.direction = 1 ∨ q.direction = -1) ∧
        (q = s ∨ q.active_pin = s.active_pin + 1 ∨ q.active_pin + 1 = s.active_pin) := by
  have hsetup : setup initial t0 = some (⟨0, 1, t0⟩,
      ((List.range NUM_LEDS).map fun i => PinEvent.pinMode (LED_PIN.getD i 0) OUTPUT) ++
        [PinEvent.digitalWrite 5 HIGH]) := rfl
  obtain ⟨s, outs, h, hp, hd⟩ :=
    loopMany_inv clocks ⟨0, 1, t0⟩ (Nat.zero_le 7) (Or.inl rfl)
  refine ⟨s, ((List.range NUM_LEDS).map fun i => PinEvent.pinMode (LED_PIN.getD i 0) OUTPUT) ++
      [PinEvent.digitalWrite 5 HIGH], outs, by simp only [run, hsetup, h], hp, hd,
    ⟨_, LED_PIN_lookup _ (by omega)⟩, ?_⟩
  intro now now2
  exact loop_inv s now now2 hp hd

end TwoWayScanning

/-! ## The wave of the two-way scanning -/

namespace TwoWayScanning

lemma applyEvents_shift (P Q : Nat) :
    applyEvents (fun x => decide (x = P))
        [PinEvent.digitalWrite P LOW, PinEvent.digitalWrite Q HIGH] =
      fun x => decide (x = Q) := by
  funext x
  simp only [applyEvents, List.foldl, PinEvent.apply, HIGH, LOW]
  by_cases h1 : x = Q
  · simp [h1]
  · by_cases h2 : x = P
    · simp [h1, h2]
    · simp [h1, h2]

lemma OnWave_bounds {s : State} {k : Nat} (hw : OnWave s k) :
    s.active_pin ≤ 7 ∧ (s.direction = 1 ∨ s.direction = -1) := by
  rcases hw with ⟨h1, h2, h3⟩ | ⟨h1, h2, h3⟩ | ⟨h1, h2, h3⟩
  · exact ⟨by omega, Or.inl h1⟩
  · exact ⟨by omega, Or.inr h1⟩
  · exact ⟨by omega, Or.inr h1⟩

/-- One `loop()` from a state on the wave with only the active LED on: either
nothing happens, or the wave advances by one and only the new active LED is on. -/
lemma loop_wave (s : State) (k now now2 : Nat) (hw : OnWave s k) :
    ∃ q out, loop s now now2 = some (q, out) ∧
      ((out = [] ∧ q = s) ∨
        (∃ e1 e2, out = [e1, e2] ∧ OnWave q (k + 1) ∧
          applyEvents (fun x => decide (x = LED_PIN.getD s.active_pin 0)) out =
            fun x => decide (x = LED_PIN.getD q.active_pin 0))) := by
  obtain ⟨hp, hd⟩ := OnWave_bounds hw
  by_cases c : elapsed now s.last_shift_ms > FLASH_DURATION_MS
  · refine ⟨_, _, loop_shift s now now2 hp hd c, Or.inr ⟨_, _, rfl, ?_, ?_⟩⟩
    · unfold OnWave at hw ⊢
      simp only
      rcases hw with ⟨h1, h2, h3⟩ | ⟨h1, h2, h3⟩ | ⟨h1, h2, h3⟩
      · rw [if_pos h1, if_pos h1]
        split_ifs <;> omega
      · have hn : ¬ s.direction = 1 := by omega
        rw [if_neg hn, if_neg hn]
        split_ifs <;> omega
      · have hn : ¬ s.direction = 1 := by omega
        rw [if_neg hn, if_neg hn]
        split_ifs
        all_goals omega
    · exact applyEvents_shift _ _
  · exact ⟨s, [], by simp only [loop, if_neg c], Or.inl ⟨rfl, rfl⟩⟩

/-- Any number of `loop()` iterations from a state on the wave with only the
active LED on. -/
lemma loopMany_wave (clocks : List (Nat × Nat)) (s : State) (k : Nat) (hw : OnWave s k) :
    ∃ q outs, loopMany clocks s = some (q, outs) ∧
      OnWave q (k + (rendered outs).length) ∧
      applyEvents (fun x => decide (x = LED_PIN.getD s.active_pin 0)) outs.flatten =
        fun x => decide (x = LED_PIN.getD q.active_pin 0) := by
  induction clocks generalizing s k with
  | nil => exact ⟨s, [], rfl, hw, rfl⟩
  | cons c rest ih =>
    obtain ⟨now, now2⟩ := c
    obtain ⟨s1, out, h1, hcase⟩ := loop_wave s k now now2 hw
    rcases hcase with ⟨rfl, rfl⟩ | ⟨e1, e2, rfl, hw1, hl1⟩
    · obtain ⟨q, outs, h2, hwq, hlq⟩ := ih s1 k hw
      exact ⟨q, [] :: outs, by simp only [loopMany, h1, h2],
        by rw [rendered_cons_nil]; exact hwq,
        by rw [List.flatten_cons, List.nil_append]; exact hlq⟩
    · obtain ⟨q, outs, h2, hwq, hlq⟩ := ih s1 (k + 1) hw1
      refine ⟨q, [e1, e2] :: outs, by simp only [loopMany, h1, h2], ?_, ?_⟩
      · rw [rendered_cons_cons, List.length_cons]
        have e : k + ((rendered outs).length + 1) = k + 1 + (rendered outs).length := by omega
        rw [e]
        exact hwq
      · rw [List.flatten_cons, AnimationsV2.applyEvents_append, hl1]
        exact hlq

/-- One `loop()` from a state with `active_pin ≤ 7` and `direction = ±1`: when
the test succeeds it writes two events and stores the second clock value, when
the test fails it writes nothing and changes nothing. -/
lemma loop_test_cases (s : State) (now now2 : Nat) (hp : s.active_pin ≤ 7)
    (hd : s.direction = 1 ∨ s.direction = -1) :
    ∃ q out, loop s now now2 = some (q, out) ∧ q.active_pin ≤ 7 ∧
      (q.direction = 1 ∨ q.direction = -1) ∧
      ((elapsed now s.last_shift_ms > FLASH_DURATION_MS ∧ q.last_shift_ms = now2 ∧
          ∃ e1 e2, out = [e1, e2]) ∨
        (¬ elapsed now s.last_shift_ms > FLASH_DURATION_MS ∧ q = s ∧ out = [])) := by
  obtain ⟨q, out, h, hq, hdq, -⟩ := loop_inv s now now2 hp hd
  refine ⟨q, out, h, hq, hdq, ?_⟩
  by_cases c : elapsed now s.last_shift_ms > FLASH_DURATION_MS
  · have hs := loop_shift s now now2 hp hd c
    obtain ⟨h1, h2⟩ := Prod.mk.inj (Option.some.inj (h.symm.trans hs))
    exact Or.inl ⟨c, by rw [h1], _, _, h2⟩
  · have hs : loop s now now2 = some (s, []) := by simp only [loop, if_neg c]
    obtain ⟨h1, h2⟩ := Prod.mk.inj (Option.some.inj (h.symm.trans hs))
    exact Or.inr ⟨c, h1, h2⟩

/-- From a state with `active_pin ≤ 7` and `direction = ±1`, the iterations that
write something are those whose test succeeds; the tests recorded by `tests` are
the tests of the run, the last one taken against the date the state holds after
the iterations before it; and one more `loop()` extends the run. -/
lemma scanning_loopMany_tests (clocks : List (Nat × Nat)) (now now2 : Nat) (s : State)
    (hp : s.active_pin ≤ 7) (hd : s.direction = 1 ∨ s.direction = -1) :
    ∃ q outs, loopMany clocks s = some (q, outs) ∧
      (rendered outs).length = (tests s.last_shift_ms clocks).count true ∧
      tests s.last_shift_ms (clocks ++ [(now, now2)]) =
        tests s.last_shift_ms clocks ++
          [decide (elapsed now q.last_shift_ms > FLASH_DURATION_MS)] ∧
      loopMany (clocks ++ [(now, now2)]) s =
        (loop q now now2).map (fun r => (r.1, outs ++ [r.2])) := by
  induction clocks generalizing s with
  | nil =>
    refine ⟨s, [], rfl, rfl, ?_, ?_⟩
    · rw [List.nil_append]
      by_cases c : elapsed now s.last_shift_ms > FLASH_DURATION_MS
      · simp only [tests, c, decide_True, List.nil_append, if_true]
      · simp only [tests, c, decide_False, List.nil_append, if_false]
    · rw [List.nil_append]
      cases h : loop s now now2 with
      | none => simp only [loopMany, h, Option.map_none']
      | some r => simp only [loopMany, h, Option.map_some', List.nil_append]
  | cons c rest ih =>
    obtain ⟨t, t2⟩ := c
    obtain ⟨s1, out, hl, hp1, hd1, hcase⟩ := loop_test_cases s t t2 hp hd
    obtain ⟨q, outs, h0, h1, h2, h3⟩ := ih s1 hp1 hd1
    refine ⟨q, out :: outs, by simp only [loopMany, hl, h0], ?_, ?_, ?_⟩
    · rcases hcase with ⟨c, hms, e1, e2, rfl⟩ | ⟨c, rfl, rfl⟩
      · rw [hms] at h1
        simp only [tests, if_pos c, rendered_cons_cons, List.length_cons, h1,
          List.count_cons_self]
      · simp only [tests, if_neg c, rendered_cons_nil, h1]
        rw [List.count_cons_of_ne (by decide)]
    · rw [List.cons_append]
      rcases hcase with ⟨c, hms, -⟩ | ⟨c, rfl, -⟩
      · rw [hms] at h2
        simp only [tests, if_pos c, h2, List.cons_append]
      · simp only [tests, if_neg c, h2, List.cons_append]
    · rw [List.cons_append]
      simp only [loopMany, hl, h3]
      cases h : loop q now now2 with
      | none => simp only [Option.map_none']
      | some r => simp only [Option.map_some', List.cons_append]

/-- C31: in the two-way scanning, with all lines off when `setup()` starts,
after `setup()` and any number of `loop()` iterations, whatever the clock
values, the only pin that is on is `LED_PIN[active_pin]` (exactly one LED is
on). Take the `loop()` that follows the iterations at `clocks` and reads the
clock at `now` (and at `now2` when it saves the date), and let `k` be the number
of earlier iterations whose test succeeded, which are the iterations that
shifted (`tests` records these tests: its last entry is the test of this
`loop()` against the date the run has stored). Before this `loop()`,
`active_pin` is `k mod 14` when `k mod 14 ≤ 7` and `14 - k mod 14` otherwise.
When its test succeeds, it shifts: it switches `LED_PIN[active_pin]` off and
the LED at the new `active_pin` on, the new `active_pin` is one more or one
less than the old one and is the value of the wave at `k + 1`, and `now2` is
stored. When its test fails, it writes nothing and changes nothing. -/
theorem scanning_one_led_on_along_triangular_wave (t0 : Nat) (clocks : List (Nat × Nat))
    (now now2 : Nat) :
    ∃ s ev outs pin, run t0 clocks = some (s, ev, outs) ∧
      LED_PIN[s.active_pin]? = some pin ∧
      applyEvents (fun _ => false) (ev ++ outs.flatten) = (fun x => decide (x = pin)) ∧
      (LED_PIN.filter (applyEvents (fun _ => false) (ev ++ outs.flatten))).length = 1 ∧
      (rendered outs).length = (tests t0 clocks).count true ∧
      s.active_pin =
        (if (tests t0 clocks).count true % 14 ≤ 7 then (tests t0 clocks).count true % 14
         else 14 - (tests t0 clocks).count true % 14) ∧
      tests t0 (clocks ++ [(now, now2)]) =
        tests t0 clocks ++ [decide (elapsed now s.last_shift_ms > FLASH_DURATION_MS)] ∧
      (∃ q out, loop s now now2 = some (q, out) ∧
        run t0 (clocks ++ [(now, now2)]) = some (q, ev, outs ++ [out])) ∧
      (elapsed now s.last_shift_ms > FLASH_DURATION_MS →
        ∃ q, loop s now now2 =
            some (q, [PinEvent.digitalWrite pin LOW,
              PinEvent.digitalWrite (LED_PIN.getD q.active_pin 0) HIGH]) ∧
          q.active_pin =
            (if ((tests t0 clocks).count true + 1) % 14 ≤ 7
              then ((tests t0 clocks).count true + 1) % 14
             else 14 - ((tests t0 clocks).count true + 1) % 14) ∧
          (q.active_pin = s.active_pin + 1 ∨ q.active_pin + 1 = s.active_pin) ∧
          (q.direction = 1 ∨ q.direction = -1) ∧
          q.last_shift_ms = now2) ∧
      (¬ elapsed now s.last_shift_ms > FLASH_DURATION_MS → loop s now now2 = some (s, [])) := by
  have hsetup : setup initial t0 = some (⟨0, 1, t0⟩,
      [PinEvent.pinMode 5 OUTPUT, PinEvent.pinMode 6 OUTPUT, PinEvent.pinMode 7 OUTPUT,
       PinEvent.pinMode 8 OUTPUT, PinEvent.pinMode 9 OUTPUT, PinEvent.pinMode 10 OUTPUT,
       PinEvent.pinMode 11 OUTPUT, PinEvent.pinMode 12 OUTPUT,
       PinEvent.digitalWrite 5 HIGH]) := rfl
  have hw0 : OnWave ⟨0, 1, t0⟩ 0 := Or.inl ⟨rfl, rfl, by decide⟩
  obtain ⟨s, outs, h, hw, hl⟩ := loopMany_wave clocks ⟨0, 1, t0⟩ 0 hw0
  obtain ⟨s', outs', h', hcount, htests, happ⟩ :=
    scanning_loopMany_tests clocks now now2 ⟨0, 1, t0⟩ (Nat.zero_le 7) (Or.inl rfl)
  obtain ⟨hs, ho⟩ := Prod.mk.inj (Option.some.inj (h'.symm.trans h))
  subst hs
  subst ho
  simp only at hcount htests
  rw [Nat.zero_add, hcount] at hw
  obtain ⟨hp, hd⟩ := OnWave_bounds hw
  have hlines : applyEvents (fun _ => false)
      ([PinEvent.pinMode 5 OUTPUT, PinEvent.pinMode 6 OUTPUT, PinEvent.pinMode 7 OUTPUT,
        PinEvent.pinMode 8 OUTPUT, PinEvent.pinMode 9 OUTPUT, PinEvent.pinMode 10 OUTPUT,
        PinEvent.pinMode 11 OUTPUT, PinEvent.pinMode 12 OUTPUT,
        PinEvent.digitalWrite 5 HIGH] ++ outs'.flatten) =
      fun x => decide (x = LED_PIN.getD s'.active_pin 0) := by
    rw [AnimationsV2.applyEvents_append]
    have h0 : applyEvents (fun _ => false)
        [PinEvent.pinMode 5 OUTPUT, PinEvent.pinMode 6 OUTPUT, PinEvent.pinMode 7 OUTPUT,
         PinEvent.pinMode 8 OUTPUT, PinEvent.pinMode 9 OUTPUT, PinEvent.pinMode 10 OUTPUT,
         PinEvent.pinMode 11 OUTPUT, PinEvent.pinMode 12 OUTPUT,
         PinEvent.digitalWrite 5 HIGH] = fun x => decide (x = 5) := by
      funext x
      simp only [applyEvents, List.foldl, PinEvent.apply, HIGH]
      by_cases hx : x = 5
      · simp [hx]
      · simp [hx]
    rw [h0]
    exact hl
  obtain ⟨q, out, hq, -⟩ := loop_inv s' now now2 hp hd
  refine ⟨s', _, outs', LED_PIN.getD s'.active_pin 0, by simp only [run, hsetup, h],
    LED_PIN_lookup _ (by omega), hlines, ?_, hcount, ?_, htests, ⟨q, out, hq, ?_⟩, ?_, ?_⟩
  · rw [hlines]
    have hap : s'.active_pin < 8 := by omega
    interval_cases s'.active_pin <;> rfl
  · unfold OnWave at hw
    rcases hw with ⟨h1, h2, h3⟩ | ⟨h1, h2, h3⟩ | ⟨h1, h2, h3⟩
    · rw [if_pos h3]; exact h2
    · rw [if_neg (by omega)]; omega
    · rw [if_pos (by omega)]; omega
  · simp only [run, hsetup, happ, hq, Option.map_some']
  · intro c
    refine ⟨_, loop_shift s' now now2 hp hd c, ?_, ?_, ?_, rfl⟩
    · unfold OnWave at hw
      simp only
      rcases hw with ⟨h1, h2, h3⟩ | ⟨h1, h2, h3⟩ | ⟨h1, h2, h3⟩
      · rw [if_pos h1]
        split_ifs
        all_goals omega
      · have hn : ¬ s'.direction = 1 := by omega
        rw [if_neg hn]
        split_ifs
        all_goals omega
      · have hn : ¬ s'.direction = 1 := by omega
        rw [if_neg hn]
        split_ifs
        all_goals omega
    · simp only
      rcases hd with h1 | h1
      · rw [if_pos h1]
        split_ifs
        all_goals omega
      · have hn : ¬ s'.direction = 1 := by omega
        rw [if_neg hn]
        split_ifs
        all_goals omega
    · simp only
      split_ifs
      all_goals simp
  · intro c
    simp only [loop, if_neg c]

/-- Instance on the turn at the end of the row: with `setup()` at 0 and seven
iterations 41 ms apart, all seven tests succeed and `active_pin` is 7; the
`loop()` at 328, whose test succeeds, is shift number 7: it switches pin 12
off and pin 11 on and leaves `active_pin = 6`; read at 327 instead, its test
fails and it writes nothing. -/
theorem scanning_one_led_on_along_triangular_wave_witness :
    run 0 [(41, 41), (82, 82), (123, 123), (164, 164), (205, 205), (246, 246), (287, 287)] =
        some (⟨7, 1, 287⟩,
          [PinEvent.pinMode 5 OUTPUT, PinEvent.pinMode 6 OUTPUT, PinEvent.pinMode 7 OUTPUT,
           PinEvent.pinMode 8 OUTPUT, PinEvent.pinMode 9 OUTPUT, PinEvent.pinMode 10 OUTPUT,
           PinEvent.pinMode 11 OUTPUT, PinEvent.pinMode 12 OUTPUT,
           PinEvent.digitalWrite 5 HIGH],
          [[PinEvent.digitalWrite 5 LOW, PinEvent.digitalWrite 6 HIGH],
           [PinEvent.digitalWrite 6 LOW, PinEvent.digitalWrite 7 HIGH],
           [PinEvent.digitalWrite 7 LOW, PinEvent.digitalWrite 8 HIGH],
           [PinEvent.digitalWrite 8 LOW, PinEvent.digitalWrite 9 HIGH],
           [PinEvent.digitalWrite 9 LOW, PinEvent.digitalWrite 10 HIGH],
           [PinEvent.digitalWrite 10 LOW, PinEvent.digitalWrite 11 HIGH],
           [PinEvent.digitalWrite 11 LOW, PinEvent.digitalWrite 12 HIGH]]) ∧
      (tests 0
        [(41, 41), (82, 82), (123, 123), (164, 164), (205, 205), (246, 246),
          (287, 287)]).count true = 7 ∧
      elapsed 328 287 > FLASH_DURATION_MS ∧
      (∃ q, loop ⟨7, 1, 287⟩ 328 328 =
          some (q, [PinEvent.digitalWrite 12 LOW,
            PinEvent.digitalWrite (LED_PIN.getD q.active_pin 0) HIGH]) ∧
        q.active_pin = 6) ∧
      loop ⟨7, 1, 287⟩ 327 327 = some (⟨7, 1, 287⟩, []) := by
  have hrun : run 0
      [(41, 41), (82, 82), (123, 123), (164, 164), (205, 205), (246, 246), (287, 287)] =
      some (⟨7, 1, 287⟩,
        [PinEvent.pinMode 5 OUTPUT, PinEvent.pinMode 6 OUTPUT, PinEvent.pinMode 7 OUTPUT,
         PinEvent.pinMode 8 OUTPUT, PinEvent.pinMode 9 OUTPUT, PinEvent.pinMode 10 OUTPUT,
         PinEvent.pinMode 11 OUTPUT, PinEvent.pinMode 12 OUTPUT,
         PinEvent.digitalWrite 5 HIGH],
        [[PinEvent.digitalWrite 5 LOW, PinEvent.digitalWrite 6 HIGH],
         [PinEvent.digitalWrite 6 LOW, PinEvent.digitalWrite 7 HIGH],
         [PinEvent.digitalWrite 7 LOW, PinEvent.digitalWrite 8 HIGH],
         [PinEvent.digitalWrite 8 LOW, PinEvent.digitalWrite 9 HIGH],
         [PinEvent.digitalWrite 9 LOW, PinEvent.digitalWrite 10 HIGH],
         [PinEvent.digitalWrite 10 LOW, PinEvent.digitalWrite 11 HIGH],
         [PinEvent.digitalWrite 11 LOW, PinEvent.digitalWrite 12 HIGH]]) := by decide
  obtain ⟨s, ev, outs, pin, h0, hpin, -, -, -, -, -, -, h1, -⟩ :=
    scanning_one_led_on_along_triangular_wave 0
      [(41, 41), (82, 82), (123, 123), (164, 164), (205, 205), (246, 246), (287, 287)] 328 328
  obtain ⟨s2, ev2, outs2, pin2, h02, -, -, -, -, -, -, -, -, h2⟩ :=
    scanning_one_led_on_along_triangular_wave 0
      [(41, 41), (82, 82), (123, 123), (164, 164), (205, 205), (246, 246), (287, 287)] 327 327
  obtain ⟨hs, -⟩ := Prod.mk.inj (Option.some.inj (h0.symm.trans hrun))
  obtain ⟨hs2, -⟩ := Prod.mk.inj (Option.some.inj (h02.symm.trans hrun))
  subst hs
  subst hs2
  have hp12 : pin = 12 := by
    have : LED_PIN[7]? = some 12 := by decide
    exact (Option.some.inj (this.symm.trans hpin)).symm
  subst hp12
  obtain ⟨q, hq, hq6, -⟩ := h1 (by decide)
  exact ⟨hrun, by decide, by decide, ⟨q, hq, hq6⟩, h2 (by decide)⟩

end TwoWayScanning

/-! ## The one-way scanning -/

namespace OneWayScanning

/-- The level of a pin after a list of steps depends on the prior level of that
pin only. -/
lemma applySteps_congr (steps : List Step) (p1 p2 : Nat → Bool) (x : Nat)
    (h : p1 x = p2 x) : applySteps p1 steps x = applySteps p2 steps x := by
  induction steps generalizing p1 p2 with
  | nil => exact h
  | cons st rest ih =>
    simp only [applySteps, List.foldl_cons]
    apply ih
    cases st with
    | delay ms => exact h
    | pin e =>
      cases e with
      | pinMode pin mode => exact h
      | digitalWrite pin val =>
        simp only [Step.apply, PinEvent.apply]
        split_ifs
        · rfl
        · exact h

lemma ledsOn_prefix_all_off : ∀ n, n < 25 →
    ledsOn (applySteps (fun _ => false) (loop.take n)) ≤ 1 := by
  decide

lemma take_loop_of_ge (n : Nat) (h : 24 ≤ n) : loop.take n = loop :=
  List.take_of_length_le (by rw [show loop.length = 24 from rfl]; exact h)

/-- C32: one pass of `loop()` of the one-way scanning is, for `i = 0` to 7 in
increasing order, `digitalWrite(LED_PIN[i], HIGH)`, `delay(40)`,
`digitalWrite(LED_PIN[i], LOW)`; if all LEDs are off on entry, then after any
number `n` of its steps at most one LED is on, and all LEDs are off when the
pass is over. -/
theorem one_way_pass_lights_one_led_at_a_time (prior : Nat → Bool) (n : Nat)
    (hoff : ∀ pin ∈ LED_PIN, prior pin = false) :
    loop =
      [Step.pin (PinEvent.digitalWrite 5 HIGH), Step.delay 40,
       Step.pin (PinEvent.digitalWrite 5 LOW),
       Step.pin (PinEvent.digitalWrite 6 HIGH), Step.delay 40,
       Step.pin (PinEvent.digitalWrite 6 LOW),
       Step.pin (PinEvent.digitalWrite 7 HIGH), Step.delay 40,
       Step.pin (PinEvent.digitalWrite 7 LOW),
       Step.pin (PinEvent.digitalWrite 8 HIGH), Step.delay 40,
       Step.pin (PinEvent.digitalWrite 8 LOW),
       Step.pin (PinEvent.digitalWrite 9 HIGH), Step.delay 40,
       Step.pin (PinEvent.digitalWrite 9 LOW),
       Step.pin (PinEvent.digitalWrite 10 HIGH), Step.delay 40,
       Step.pin (PinEvent.digitalWrite 10 LOW),
       Step.pin (PinEvent.digitalWrite 11 HIGH), Step.delay 40,
       Step.pin (PinEvent.digitalWrite 11 LOW),
       Step.pin (PinEvent.digitalWrite 12 HIGH), Step.delay 40,
       Step.pin (PinEvent.digitalWrite 12 LOW)] ∧
      LED_PIN = [5, 6, 7, 8, 9, 10, 11, 12] ∧
      ledsOn (applySteps prior (loop.take n)) ≤ 1 ∧
      ledsOn (applySteps prior loop) = 0 ∧
      ∀ pin ∈ LED_PIN, applySteps prior loop pin = false := by
  have hcongr : ∀ steps : List Step,
      ledsOn (applySteps prior steps) = ledsOn (applySteps (fun _ => false) steps) := by
    intro steps
    unfold ledsOn
    congr 1
    apply List.filter_congr
    intro x hx
    exact applySteps_congr steps prior (fun _ => false) x (hoff x hx)
  have hend : ∀ pin ∈ LED_PIN, applySteps (fun _ => false) loop pin = false := by decide
  refine ⟨rfl, rfl, ?_, ?_, ?_⟩
  · rw [hcongr]
    by_cases hn : n < 25
    · exact ledsOn_prefix_all_off n hn
    · rw [take_loop_of_ge n (by omega)]
      exact ledsOn_prefix_all_off 24 (by decide)
  · rw [hcongr]
    decide
  · intro pin hpin
    rw [applySteps_congr loop prior (fun _ => false) pin (hoff pin hpin)]
    exact hend pin hpin

/-- Instance with all pins off on entry: after the first step of the pass one
LED is on, after the whole pass none. -/
theorem one_way_pass_lights_one_led_at_a_time_witness :
    (∀ pin ∈ LED_PIN, (fun _ : Nat => false) pin = false) ∧
      ledsOn (applySteps (fun _ => false) (loop.take 1)) = 1 ∧
      ledsOn (applySteps (fun _ => false) loop) = 0 := by
  have h := one_way_pass_lights_one_led_at_a_time (fun _ => false) 1 (fun _ _ => rfl)
  exact ⟨fun _ _ => rfl, by decide, h.2.2.2.1⟩

end OneWayScanning
